import Mathlib

/-!
# NVGT AngelScript integration (src/angelscript.cpp)

A shallow embedding of the run scheduler (ExecuteScript, Exit), of the tail of
CompileExecutable and of the bytecode codec (NVGTBytecodeStream and the one-byte
stream adapter around it), followed by the properties proved about them.

Conventions. C int values are modelled as Int, with toInt32 where the C
arithmetic is modular; asUINT, UInt32 and UInt64 values are Nat reduced modulo
2^32 or 2^64 where the code can exceed the width.  Calls into the script engine,
the context manager, zlib and Poco are not part of the source file: what such a
call returns is an input of the model, and the calls made are recorded as events.
-/

namespace NVGT

/-! ## Machine integers -/

/-- Value of a C int holding the two's complement 32-bit pattern of x. -/
def toInt32 (x : Int) : Int :=
  if x % 4294967296 < 2147483648 then x % 4294967296 else x % 4294967296 - 4294967296

/-- Value of a 32-bit unsigned (asUINT, UInt32, zlib uInt) after converting x. -/
def toUInt32 (x : Int) : Nat := (x % 4294967296).toNat

/-! ## Constants of angelscript.h used by the source -/

/-- Context state asEXECUTION_FINISHED of enum asEContextState. -/
def asEXECUTION_FINISHED : Int := 0
/-- Context state asEXECUTION_SUSPENDED. -/
def asEXECUTION_SUSPENDED : Int := 1
/-- Context state asEXECUTION_ABORTED. -/
def asEXECUTION_ABORTED : Int := 2
/-- Context state asEXECUTION_EXCEPTION. -/
def asEXECUTION_EXCEPTION : Int := 3
/-- Type id asTYPEID_VOID of enum asETypeIdFlags. -/
def asTYPEID_VOID : Int := 0
/-- Type id asTYPEID_INT32. -/
def asTYPEID_INT32 : Int := 4

/-! ## Run scheduler: Exit and ExecuteScript (lines 344-348 and 636-716) -/

/-- The globals written by Exit, with the number of AbortAll calls made on g_ctxMgr. -/
structure Globals where
  g_shutting_down : Bool
  g_retcode : Int
  abort_all_calls : Nat
  deriving DecidableEq, Repr

/-- Globals at program start: g_shutting_down = false, g_retcode = 0. -/
def Globals.initial : Globals := ⟨false, 0, 0⟩

/-- Exit(retcode): sets g_shutting_down, records the code and calls g_ctxMgr->AbortAll(). -/
def Exit (g : Globals) (retcode : Int) : Globals :=
  { g_shutting_down := true, g_retcode := retcode, abort_all_calls := g.abort_all_calls + 1 }

/-- The functions ExecuteScript looks up by declaration in module nvgt_game. -/
structure Module where
  int_main : Bool
  void_main : Bool
  preglobals : Bool
  on_exit : Bool
  deriving DecidableEq, Repr

/-- The entry point chosen on lines 640-642: int main() first, then void main(). -/
inductive EntryPoint
  | int_main
  | void_main
  deriving DecidableEq, Repr

/-- Lines 640-642: func = GetFunctionByDecl of int main(), else of void main(). -/
def Module.entry (m : Module) : Option EntryPoint :=
  if m.int_main then some EntryPoint.int_main
  else if m.void_main then some EntryPoint.void_main
  else none

/-- What func->GetReturnTypeId() gives for the entry point. -/
def EntryPoint.GetReturnTypeId : EntryPoint → Int
  | EntryPoint.int_main => asTYPEID_INT32
  | EntryPoint.void_main => asTYPEID_VOID

/-- The three contexts ExecuteScript handles: the pooled one used for preglobals,
the entry context and the one created for on_exit. -/
inductive Ctx
  | pooled
  | entry
  | hook
  deriving DecidableEq, Repr

/-- Calls and effects of ExecuteScript, in the order the source performs them. -/
inductive Event
  | SetAccessMask
  | WriteMessage_no_entry_point
  | RequestContext
  | Prepare_preglobals
  | Execute_preglobals
  | ReturnContext (c : Ctx)
  | ResetGlobalVars
  | append_info_to_errors
  | ShowAngelscriptMessages
  | globals_initialised
  | AddContext (c : Ctx)
  | ExecuteScripts
  | GetExceptionInfo
  | question
  | ClipboardSetText
  | alert
  | DoneWithContext (c : Ctx)
  | Execute (c : Ctx)
  | delete_ctxMgr
  | clear_ctxPool
  | Discard
  | GarbageCollect
  deriving DecidableEq, Repr

/-- Everything ExecuteScript obtains from the engine, the context manager, the
scripts and the user.  mod is engine->GetModule; request_ok says RequestContext
returned a context; pre_prepare, pre_execute and pre_return_byte are what Prepare,
Execute and GetReturnByte give for the preglobals hook; reset_globals is what
ResetGlobalVars returns; run_exits are the codes of the Exit calls scripts made
before the supervisor loop ended, in order; state and return_value are
ctx->GetState() and the int at ctx->GetAddressOfReturnValue() of the entry context
after the loop; answer is what question returns; hook_ctx_ok says AddContext gave a
context for on_exit; hook_exits are the codes of the Exit calls made by on_exit. -/
structure ScriptEnv where
  g0 : Globals
  mod : Option Module
  request_ok : Bool
  pre_prepare : Int
  pre_execute : Int
  pre_return_byte : Nat
  reset_globals : Int
  run_exits : List Int
  state : Int
  return_value : Int
  answer : Int
  hook_ctx_ok : Bool
  hook_exits : List Int
  deriving DecidableEq, Repr

/-- Result of ExecuteScript: the returned int, the calls made, the globals left. -/
structure ExecResult where
  ret : Int
  events : List Event
  globals : Globals
  deriving DecidableEq, Repr

/-- Lines 677-699: the exit code r computed from the entry context state, with the
calls made on the way. In the aborted branch r becomes g_retcode, and the test
on line 692 compares that new r with asEXECUTION_ABORTED. -/
def exitCode (func : EntryPoint) (state return_value g_retcode answer : Int) : Int × List Event :=
  if state ≠ asEXECUTION_FINISHED then
    let rev : Int × List Event :=
      if state = asEXECUTION_EXCEPTION then
        (-1, [Event.GetExceptionInfo, Event.question] ++
          (if answer = 1 then [Event.ClipboardSetText] else []))
      else if state = asEXECUTION_ABORTED then
        (g_retcode, [])
      else
        (-1, [Event.alert])
    if rev.1 ≠ asEXECUTION_ABORTED then (rev.1, rev.2 ++ [Event.DoneWithContext Ctx.entry])
    else rev
  else
    if func.GetReturnTypeId = asTYPEID_INT32 then (return_value, []) else (0, [])

/-- Lines 700-707: the on_exit hook, run when the module declares it and AddContext
gives a context; its Exit calls act on the globals. -/
def runOnExit (m : Module) (hook_ctx_ok : Bool) (hook_exits : List Int) (g : Globals) :
    List Event × Globals :=
  if m.on_exit then
    if hook_ctx_ok then
      ([Event.AddContext Ctx.hook, Event.Execute Ctx.hook, Event.DoneWithContext Ctx.hook],
        hook_exits.foldl Exit g)
    else ([Event.AddContext Ctx.hook], g)
  else ([], g)

/-- Lines 708-714: the context manager is deleted, the pool cleared, the module discarded. -/
def teardown : List Event :=
  [Event.delete_ctxMgr, Event.clear_ctxPool, Event.Discard, Event.GarbageCollect]

/-- Lines 662-716: from ResetGlobalVars to the return.  The debugger prompt of
lines 670-675 exists in the compiler build only and is left out. -/
def runMain (env : ScriptEnv) (m : Module) (func : EntryPoint) (before : List Event) : ExecResult :=
  if env.reset_globals < 0 then
    ⟨-1, before ++ [Event.ResetGlobalVars, Event.append_info_to_errors], env.g0⟩
  else
    let g1 := env.run_exits.foldl Exit env.g0
    let code := exitCode func env.state env.return_value g1.g_retcode env.answer
    let out := runOnExit m env.hook_ctx_ok env.hook_exits g1
    ⟨code.1,
      before ++ [Event.ResetGlobalVars, Event.ShowAngelscriptMessages, Event.globals_initialised,
        Event.AddContext Ctx.entry, Event.ExecuteScripts] ++ code.2 ++ out.1 ++ teardown,
      out.2⟩

/-- ExecuteScript (lines 636-716). -/
def ExecuteScript (env : ScriptEnv) : ExecResult :=
  match env.mod with
  | none => ⟨-1, [], env.g0⟩
  | some m =>
    match m.entry with
    | none => ⟨-1, [Event.SetAccessMask, Event.WriteMessage_no_entry_point], env.g0⟩
    | some func =>
      if !env.request_ok then ⟨-1, [Event.SetAccessMask, Event.RequestContext], env.g0⟩
      else if m.preglobals then
        if env.pre_prepare < 0 then
          ⟨-1, [Event.SetAccessMask, Event.RequestContext, Event.Prepare_preglobals,
            Event.ReturnContext Ctx.pooled], env.g0⟩
        else if env.pre_execute < 0 then
          ⟨-1, [Event.SetAccessMask, Event.RequestContext, Event.Prepare_preglobals,
            Event.Execute_preglobals, Event.ReturnContext Ctx.pooled], env.g0⟩
        else if env.pre_return_byte = 0 then
          ⟨0, [Event.SetAccessMask, Event.RequestContext, Event.Prepare_preglobals,
            Event.Execute_preglobals, Event.ReturnContext Ctx.pooled], env.g0⟩
        else
          runMain env m func [Event.SetAccessMask, Event.RequestContext, Event.Prepare_preglobals,
            Event.Execute_preglobals, Event.ReturnContext Ctx.pooled]
      else
        runMain env m func [Event.SetAccessMask, Event.RequestContext]

/-! ## Bytecode codec: NVGTBytecodeStream (lines 117-206) -/

/-- One byte of a buffer. -/
abbrev Byte := Fin 256

/-- The byte holding the low 8 bits of n. -/
def byte (n : Nat) : Byte := ⟨n % 256, Nat.mod_lt n (by decide)⟩

/-- Return code Z_OK of zlib. -/
def Z_OK : Int := 0
/-- Return code Z_STREAM_END of zlib. -/
def Z_STREAM_END : Int := 1
/-- Return code Z_STREAM_ERROR of zlib. -/
def Z_STREAM_ERROR : Int := -2
/-- Return code Z_BUF_ERROR of zlib: no progress was possible. -/
def Z_BUF_ERROR : Int := -5
/-- Flush mode Z_NO_FLUSH of zlib. -/
def Z_NO_FLUSH : Int := 0
/-- Flush mode Z_SYNC_FLUSH of zlib. -/
def Z_SYNC_FLUSH : Int := 2
/-- Flush mode Z_FINISH of zlib. -/
def Z_FINISH : Int := 4

/-- The library routines the stream calls, which are not part of the source file:
zlib's deflateInit, deflate, inflateInit and inflate as step functions on an
internal state, and the pair angelscript_bytecode_encrypt and
angelscript_bytecode_decrypt of nvgt_config.h as functions on the bytes they are
given.  A deflate or inflate step receives the internal state, the input bytes
available at next_in, avail_out and (for deflate) the flush mode; it returns the
new internal state, the number of input bytes consumed, the bytes written at
next_out and the return code. -/
structure ZLib where
  DState : Type
  IState : Type
  deflateInit : Int → DState
  deflate : DState → List Byte → Nat → Int → DState × Nat × List Byte × Int
  inflateInit : IState
  inflate : IState → List Byte → Nat → IState × Nat × List Byte × Int
  encrypt : List Byte → List Byte
  decrypt : List Byte → List Byte

/-- State of the member zstr: zeroed by the constructor, then initialised for
deflate by the first Write or for inflate by set. -/
inductive ZState (Z : ZLib)
  | zeroed
  | deflating (d : Z.DState)
  | inflating (i : Z.IState)

/-- The object NVGTBytecodeStream.  content is none for NULL; while writing it
holds the total_out bytes produced so far, after set it holds the decrypted code.
next_in is the input still to be consumed, so zstr.avail_in is its length. -/
structure NVGTBytecodeStream (Z : ZLib) where
  content : Option (List Byte)
  zstate : ZState Z
  next_in : List Byte
  avail_out : Nat
  total_out : Nat
  data_type : Int
  cursor : Int
  written_size : Int
  alloc_size : Int

/-- The member buffer_size = 32 * 1024. -/
def buffer_size : Nat := 32 * 1024

namespace NVGTBytecodeStream

/-- The constructor (lines 125-132). -/
def new (Z : ZLib) : NVGTBytecodeStream Z :=
  { content := none, zstate := ZState.zeroed, next_in := [], avail_out := 0, total_out := 0,
    data_type := -1, cursor := 0, written_size := 0, alloc_size := 0 }

/-- One call deflate(&zstr, flush).  The library never consumes more than avail_in
nor writes more than avail_out; on a stream not initialised for deflate it
reports Z_STREAM_ERROR and changes nothing. -/
def deflate (Z : ZLib) (s : NVGTBytecodeStream Z) (flush : Int) : NVGTBytecodeStream Z × Int :=
  match s.zstate with
  | ZState.deflating d =>
    let r := Z.deflate d s.next_in s.avail_out flush
    let produced := r.2.2.1.take s.avail_out
    ({ s with zstate := ZState.deflating r.1,
              next_in := s.next_in.drop r.2.1,
              content := some (s.content.getD [] ++ produced),
              avail_out := s.avail_out - produced.length,
              total_out := s.total_out + produced.length }, r.2.2.2)
  | _ => (s, Z_STREAM_ERROR)

/-- Line 162: while (zstr.avail_in > 0) deflate(&zstr, Z_NO_FLUSH).  The result is
none when the loop is still running after fuel iterations. -/
def deflateWhileInput (Z : ZLib) : Nat → NVGTBytecodeStream Z → Option (NVGTBytecodeStream Z)
  | 0, s => if s.next_in.length > 0 then none else some s
  | fuel + 1, s =>
    if s.next_in.length > 0 then deflateWhileInput Z fuel (deflate Z s Z_NO_FLUSH).1 else some s

/-- Lines 143-152 of Write: the first call allocates the buffer and initialises
the compressor with the global g_bcCompressionLevel. -/
def Write_init (Z : ZLib) (g_bcCompressionLevel : Int) (s : NVGTBytecodeStream Z) :
    NVGTBytecodeStream Z :=
  if s.content.isNone then
    { s with content := some [], data_type := 0,
             zstate := ZState.deflating (Z.deflateInit g_bcCompressionLevel),
             total_out := 0, cursor := 0, written_size := 0,
             alloc_size := buffer_size, avail_out := buffer_size }
  else s

/-- Lines 153-161 of Write: written_size += size, when it exceeds alloc_size the
buffer is doubled, once, and avail_out recomputed; then ptr becomes the input. -/
def Write_grow {Z : ZLib} (s : NVGTBytecodeStream Z) (ptr : List Byte) : NVGTBytecodeStream Z :=
  if toInt32 (s.written_size + ptr.length) > s.alloc_size then
    { s with written_size := toInt32 (s.written_size + ptr.length),
             alloc_size := toInt32 (s.alloc_size * 2),
             avail_out := toUInt32 (toInt32 (s.alloc_size * 2) - s.total_out),
             next_in := ptr }
  else { s with written_size := toInt32 (s.written_size + ptr.length), next_in := ptr }

/-- Lines 163-164 of Write: cursor += size; return size. -/
def Write_end {Z : ZLib} (s : NVGTBytecodeStream Z) (size : Nat) : NVGTBytecodeStream Z × Int :=
  ({ s with cursor := toInt32 (s.cursor + size) }, toInt32 size)

/-- Write(ptr, size) of the compiler build (lines 142-165), with size the length
of ptr.  The result is none when the deflate loop on line 162 does not end within
fuel iterations. -/
def Write (Z : ZLib) (g_bcCompressionLevel : Int) (fuel : Nat) (s : NVGTBytecodeStream Z)
    (ptr : List Byte) : Option (NVGTBytecodeStream Z × Int) :=
  match deflateWhileInput Z fuel (Write_grow (Write_init Z g_bcCompressionLevel s) ptr) with
  | none => none
  | some s4 => some (Write_end s4 ptr.length)

/-- What one Read call gives: the stream afterwards, the bytes inflate stored at
ptr, the return code of inflate (which Read drops) and the int Read returns. -/
structure ReadResult (Z : ZLib) where
  stream : NVGTBytecodeStream Z
  delivered : List Byte
  inflate_rc : Int
  ret : Int

/-- Read(ptr, size) (lines 171-177): one inflate call with avail_out = size, then
cursor += size and return size. -/
def Read (Z : ZLib) (s : NVGTBytecodeStream Z) (size : Nat) : ReadResult Z :=
  match s.zstate with
  | ZState.inflating i =>
    let r := Z.inflate i s.next_in size
    let produced := r.2.2.1.take size
    { stream := { s with zstate := ZState.inflating r.1,
                         next_in := s.next_in.drop r.2.1,
                         avail_out := size - produced.length,
                         total_out := s.total_out + produced.length,
                         cursor := toInt32 (s.cursor + size) },
      delivered := produced, inflate_rc := r.2.2.2, ret := toInt32 size }
  | _ =>
    { stream := { s with avail_out := size, cursor := toInt32 (s.cursor + size) },
      delivered := [], inflate_rc := Z_STREAM_ERROR, ret := toInt32 size }

/-- The member reset_cursor (lines 178-180). -/
def reset_cursor {Z : ZLib} (s : NVGTBytecodeStream Z) : NVGTBytecodeStream Z :=
  { s with cursor := 0 }

/-- The member set(code, size) (lines 182-189): decrypt the first size bytes of
code, keep them as content and start inflating from them. -/
def set (Z : ZLib) (s : NVGTBytecodeStream Z) (code : List Byte) (size : Nat) :
    NVGTBytecodeStream Z :=
  let plain := Z.decrypt (code.take size)
  { s with written_size := plain.length, content := some plain, data_type := 0,
           zstate := ZState.inflating Z.inflateInit, next_in := plain, total_out := 0 }

/-- The member get(code) (lines 192-204): make room for buffer_size more bytes when
less is free, call deflate once with Z_FINISH, encrypt the total_out bytes
produced; gives the stream, the buffer stored in *code and the returned size. -/
def get (Z : ZLib) (s : NVGTBytecodeStream Z) : NVGTBytecodeStream Z × List Byte × Int :=
  let s1 : NVGTBytecodeStream Z :=
    if s.avail_out < buffer_size then
      { s with alloc_size := toInt32 (s.alloc_size + buffer_size),
               avail_out := s.avail_out + buffer_size,
               content := some (s.content.getD []) }
    else s
  let s2 := (deflate Z s1 Z_FINISH).1
  let code := Z.encrypt ((s2.content.getD []).take s2.total_out)
  ({ s2 with written_size := code.length, content := some code }, code, code.length)

end NVGTBytecodeStream

/-- A codec that stores bytes unchanged and keeps nothing back: deflate and
inflate copy as many input bytes as fit into avail_out, and encryption is the
identity.  Its inflate inverts its deflate and its decrypt inverts its encrypt. -/
def storedZ : ZLib where
  DState := Unit
  IState := Unit
  deflateInit := fun _ => ()
  deflate := fun _ input avail_out flush =>
    ((), min input.length avail_out, input.take avail_out,
      if input.length ≤ avail_out then (if flush = Z_FINISH then Z_STREAM_END else Z_OK)
      else if avail_out = 0 then Z_BUF_ERROR else Z_OK)
  inflateInit := ()
  inflate := fun _ input avail_out =>
    ((), min input.length avail_out, input.take avail_out,
      if avail_out ≤ input.length ∧ 0 < avail_out then Z_OK else Z_BUF_ERROR)
  encrypt := fun b => b
  decrypt := fun b => b

/-! ## The one-byte stream adapter (lines 208-234) and the Poco reader and writer on it -/

/-- The value char_traits::eof() of the stream library. -/
def eof : Int := -1

/-- Conversion of a plain char holding byte b to int: sign-extending where plain
char is signed (the x86 and Apple targets), zero-extending where it is unsigned. -/
def char_to_int (char_is_signed : Bool) (b : Byte) : Int :=
  if char_is_signed && decide (128 ≤ b.val) then (b.val : Int) - 256 else (b.val : Int)

/-- The member readFromDevice (lines 212-216): Read one byte into the local char c
and return c converted to int, or eof when Read does not return 1.  uninit is the
value c holds when inflate stored nothing in it. -/
def readFromDevice (Z : ZLib) (char_is_signed : Bool) (uninit : Byte)
    (s : NVGTBytecodeStream Z) : NVGTBytecodeStream Z × Int :=
  let r := NVGTBytecodeStream.Read Z s 1
  if r.ret ≠ 1 then (r.stream, eof)
  else (r.stream, char_to_int char_is_signed (r.delivered.headD uninit))

/-- The member writeToDevice (line 217): one Write call of size 1. -/
def writeToDevice (Z : ZLib) (g_bcCompressionLevel : Int) (fuel : Nat)
    (s : NVGTBytecodeStream Z) (c : Byte) : Option (NVGTBytecodeStream Z × Int) :=
  NVGTBytecodeStream.Write Z g_bcCompressionLevel fuel s [c]

/-- Writing bytes to nvgt_bytecode_ostream: the unbuffered stream buffer passes
every char to writeToDevice and stops at the first result equal to eof. -/
def ostream_write (Z : ZLib) (g_bcCompressionLevel : Int) (fuel : Nat) :
    NVGTBytecodeStream Z → List Byte → Option (NVGTBytecodeStream Z)
  | s, [] => some s
  | s, c :: cs =>
    match writeToDevice Z g_bcCompressionLevel fuel s c with
    | none => none
    | some (s1, r) => if r = eof then some s1 else ostream_write Z g_bcCompressionLevel fuel s1 cs

/-- The stream nvgt_bytecode_istream: the codec stream and whether the stream
state is still good (neither eofbit nor failbit set). -/
structure IStream (Z : ZLib) where
  stream : NVGTBytecodeStream Z
  good : Bool

/-- Reading one char from the istream, istr.read(&c, 1): nothing is read once the
stream is not good; otherwise the stream buffer calls readFromDevice and a result
equal to eof ends the stream without storing a char. -/
def IStream.read1 {Z : ZLib} (char_is_signed : Bool) (uninit : Byte) (istr : IStream Z) :
    IStream Z × Option Byte :=
  if !istr.good then (istr, none)
  else
    let r := readFromDevice Z char_is_signed uninit istr.stream
    if r.2 = eof then ({ stream := r.1, good := false }, none)
    else ({ stream := r.1, good := true }, some (byte (r.2 % 256).toNat))

/-- Poco BinaryWriter::write7BitEncoded: the low 7 bits of value per byte, least
significant group first, bit 0x80 set on every byte but the last.  The loop runs
until value is 0; fuel bounds the iterations (10 suffice for 64 bits). -/
def write7BitEncodedLoop : Nat → Nat → List Byte
  | 0, _ => []
  | fuel + 1, value =>
    if value / 128 ≠ 0 then byte (value % 128 + 128) :: write7BitEncodedLoop fuel (value / 128)
    else [byte (value % 128)]

/-- The overload write7BitEncoded(UInt64 value). -/
def write7BitEncoded (value : Nat) : List Byte :=
  write7BitEncodedLoop 10 (value % 2 ^ 64)

/-- Poco BinaryReader::read7BitEncoded(UInt64&): per iteration c = 0, one char is
read, value += (c & 0x7F) << s, s += 7, until a char without bit 0x80.  The
result is none when the loop is still running after fuel iterations. -/
def read7BitEncodedLoop {Z : ZLib} (char_is_signed : Bool) (uninit : Byte) :
    Nat → IStream Z → Nat → Nat → Option (IStream Z × Nat)
  | 0, _, _, _ => none
  | fuel + 1, istr, value, sh =>
    let r := istr.read1 char_is_signed uninit
    let c : Nat := (r.2.getD 0).val
    let value1 := (value + ((c % 128) <<< sh) % 2 ^ 64) % 2 ^ 64
    if c / 128 ≠ 0 then read7BitEncodedLoop char_is_signed uninit fuel r.1 value1 (sh + 7)
    else some (r.1, value1)

/-- The call br.read7BitEncoded(val). -/
def read7BitEncoded {Z : ZLib} (char_is_signed : Bool) (uninit : Byte) (fuel : Nat)
    (istr : IStream Z) : Option (IStream Z × Nat) :=
  read7BitEncodedLoop char_is_signed uninit fuel istr 0 0

/-! ## SaveCompiledScript, LoadCompiledScript and the tail of CompileExecutable -/

/-- What SaveCompiledScript obtains from the engine and its collaborators:
whether module nvgt_game exists, the bytes serialize_nvgt_plugins writes, the
engine property values by index, the chunks the virtual machine passes to Write
during SaveByteCode, and the int SaveByteCode returns. -/
structure SaveEnv where
  has_module : Bool
  plugins : List Byte
  GetEngineProperty : Nat → Nat
  bytecode : List (List Byte)
  save_rc : Int

/-- The Write calls made by the virtual machine during SaveByteCode. -/
def writeChunks (Z : ZLib) (g_bcCompressionLevel : Int) (fuel : Nat) :
    NVGTBytecodeStream Z → List (List Byte) → Option (NVGTBytecodeStream Z)
  | s, [] => some s
  | s, c :: cs =>
    match NVGTBytecodeStream.Write Z g_bcCompressionLevel fuel s c with
    | none => none
    | some (s1, _) => writeChunks Z g_bcCompressionLevel fuel s1 cs

/-- SaveCompiledScript (lines 489-501), with asEP_LAST_PROPERTY the property count
of angelscript.h.  Gives the returned int and the buffer stored in *output (none
when it is left unassigned); the whole result is none when a Write does not return. -/
def SaveCompiledScript (Z : ZLib) (g_bcCompressionLevel : Int) (fuel : Nat)
    (asEP_LAST_PROPERTY : Nat) (e : SaveEnv) : Option (Int × Option (List Byte)) :=
  if !e.has_module then some (-1, none)
  else
    match ostream_write Z g_bcCompressionLevel fuel (NVGTBytecodeStream.new Z) e.plugins with
    | none => none
    | some s1 =>
      match ostream_write Z g_bcCompressionLevel fuel s1
          ((List.range asEP_LAST_PROPERTY).flatMap (fun i => write7BitEncoded (e.GetEngineProperty i))) with
      | none => none
      | some s2 =>
        match writeChunks Z g_bcCompressionLevel fuel s2 e.bytecode with
        | none => none
        | some s3 =>
          if e.save_rc < 0 then some (-1, none)
          else
            let r := NVGTBytecodeStream.get Z s3
            some (r.2.2, some r.2.1)

/-- What LoadCompiledScript obtains from the engine and its collaborators: whether
GetModule gives a module, load_serialized_nvgt_plugins as a reader on the
istream, and the int LoadByteCode returns for the stream it is handed. -/
structure LoadEnv (Z : ZLib) where
  module_ok : Bool
  load_serialized_nvgt_plugins : IStream Z → Bool × IStream Z
  LoadByteCode : NVGTBytecodeStream Z → Int

/-- Result of LoadCompiledScript: the returned int, the SetEngineProperty calls
made (index and value, in order) and the stream handed to LoadByteCode. -/
structure LoadResult (Z : ZLib) where
  ret : Int
  SetEngineProperty : List (Nat × Nat)
  handed : Option (NVGTBytecodeStream Z)

/-- Lines 583-587: the property loop from index i, for n more properties. -/
def loadProperties {Z : ZLib} (char_is_signed : Bool) (uninit : Byte) (fuel : Nat) :
    Nat → Nat → IStream Z → Option (IStream Z × List (Nat × Nat))
  | 0, _, istr => some (istr, [])
  | n + 1, i, istr =>
    match read7BitEncoded char_is_signed uninit fuel istr with
    | none => none
    | some (istr1, val) =>
      match loadProperties char_is_signed uninit fuel n (i + 1) istr1 with
      | none => none
      | some (istr2, rest) => some (istr2, (i, val) :: rest)

/-- LoadCompiledScript (lines 570-593) on a 64-bit target (asPWORD holds the whole
UInt64).  The result is none when a read7BitEncoded loop does not end within fuel
iterations. -/
def LoadCompiledScript (Z : ZLib) (char_is_signed : Bool) (uninit : Byte) (fuel : Nat)
    (asEP_LAST_PROPERTY : Nat) (e : LoadEnv Z) (code : List Byte) (size : Nat) :
    Option (LoadResult Z) :=
  if !e.module_ok then some ⟨-1, [], none⟩
  else
    let codestream := NVGTBytecodeStream.set Z (NVGTBytecodeStream.new Z) code size
    let p := e.load_serialized_nvgt_plugins { stream := codestream, good := true }
    if !p.1 then some ⟨-1, [], none⟩
    else
      match loadProperties char_is_signed uninit fuel asEP_LAST_PROPERTY 0 p.2 with
      | none => none
      | some (istr, props) =>
        let handed := istr.stream.reset_cursor
        some ⟨if e.LoadByteCode handed < 0 then -1 else 0, props, some handed⟩

/-- The items CompileExecutable appends to the copied stub after seeking to its
end: the embedded packs, the 7-bit encoded value code_size ^ NVGT_BYTECODE_NUMBER_XOR,
the raw block of code_size bytes read from pointer code (none for NULL), and the
trailing int(stub_size). -/
inductive Appended
  | embedded_packs
  | length_field (value : Nat)
  | bytecode_block (code : Option (List Byte)) (code_size : Nat)
  | trailer (value : Int)
  deriving DecidableEq, Repr

/-- Lines 547-567 of CompileExecutable, given what SaveCompiledScript returned and
stored in code, the constant NVGT_BYTECODE_NUMBER_XOR of nvgt_config.h, whether
g_platform is windows and the stub size.  The returned int is the one of a run in
which every write completes. -/
def CompileExecutable_append (NVGT_BYTECODE_NUMBER_XOR : Nat) (windows : Bool) (stub_size : Nat)
    (saved : Int × Option (List Byte)) : Int × List Appended :=
  let code_size : Nat := toUInt32 saved.1
  if code_size < 1 then (-1, [Appended.embedded_packs])
  else
    (0, [Appended.embedded_packs,
         Appended.length_field ((code_size ^^^ NVGT_BYTECODE_NUMBER_XOR) % 2 ^ 32),
         Appended.bytecode_block saved.2 code_size] ++
        (if windows then [] else [Appended.trailer (toInt32 (stub_size % 2 ^ 64))]))

/-! ## Concrete runs used below -/

/-- A run in which int main() returns 7, with an on_exit hook that calls Exit(5). -/
def envReturns7 : ScriptEnv :=
  { g0 := Globals.initial, mod := some ⟨true, false, false, true⟩, request_ok := true,
    pre_prepare := 0, pre_execute := 0, pre_return_byte := 1, reset_globals := 0,
    run_exits := [], state := asEXECUTION_FINISHED, return_value := 7, answer := 0,
    hook_ctx_ok := true, hook_exits := [5] }

/-- A run in which a script calls Exit(42) and the entry context is left aborted. -/
def envExit42 : ScriptEnv :=
  { envReturns7 with run_exits := [42], state := asEXECUTION_ABORTED, return_value := 0 }

/-- A run whose entry context ends with an unhandled exception after Exit(9) was
recorded, the user answering yes to the clipboard question. -/
def envException : ScriptEnv :=
  { envReturns7 with run_exits := [9], state := asEXECUTION_EXCEPTION, answer := 1 }

/-- A run in which the script calls Exit(0), which leaves the entry context aborted. -/
def envExit0 : ScriptEnv :=
  { envReturns7 with run_exits := [0], state := asEXECUTION_ABORTED, return_value := 0 }

/-- A module with bool preglobals() and void on_exit() whose preglobals hook cannot
be prepared: Prepare returns a negative code. -/
def envPrepareFails : ScriptEnv :=
  { envReturns7 with mod := some ⟨true, false, true, true⟩, pre_prepare := -1 }

/-- A module with bool preglobals() and void on_exit() whose preglobals hook
returns false. -/
def envPreglobalsFalse : ScriptEnv :=
  { envReturns7 with mod := some ⟨true, false, true, true⟩, pre_return_byte := 0 }

/-- An engine with module nvgt_game, no plugin bytes and three engine properties
with the values 1, 255 and 3, whose virtual machine saves the three bytes 1, 2, 3
in one Write call. -/
def saveEnv255 : SaveEnv :=
  { has_module := true, plugins := [],
    GetEngineProperty := fun i => if i = 0 then 1 else if i = 1 then 255 else 3,
    bytecode := [[1, 2, 3]], save_rc := 0 }

/-- An engine in which module nvgt_game does not exist. -/
def saveEnvNoModule : SaveEnv :=
  { has_module := false, plugins := [], GetEngineProperty := fun _ => 0, bytecode := [],
    save_rc := 0 }

/-- A loader side with a module, a plugin loader that finds nothing to read and a
virtual machine that accepts the stream. -/
def loadEnvPlain : LoadEnv storedZ :=
  { module_ok := true, load_serialized_nvgt_plugins := fun istr => (true, istr),
    LoadByteCode := fun _ => 0 }

/-- The round trip of the codec: the chunks are handed to Write one by one, the
buffer and size that get returns are passed to set on a new stream, and as many
bytes as were written are requested from Read; gives the bytes Read stored.  The
result is none when a Write does not return. -/
def roundTrip (Z : ZLib) (g_bcCompressionLevel : Int) (fuel : Nat) (chunks : List (List Byte)) :
    Option (List Byte) :=
  match writeChunks Z g_bcCompressionLevel fuel (NVGTBytecodeStream.new Z) chunks with
  | none => none
  | some s =>
    let r := NVGTBytecodeStream.get Z s
    some (NVGTBytecodeStream.Read Z
      (NVGTBytecodeStream.set Z (NVGTBytecodeStream.new Z) r.2.1 r.2.2.toNat)
      chunks.flatten.length).delivered

/-- The same run with another on_exit situation: whether the module declares the
hook, whether AddContext supplies a context for it, and the Exit calls it makes. -/
def ScriptEnv.withHook (env : ScriptEnv) (on_exit ok : Bool) (exits : List Int) : ScriptEnv :=
  { env with mod := env.mod.map (fun m => { m with on_exit := on_exit }),
             hook_ctx_ok := ok, hook_exits := exits }

/-! ## LoadCompiledExecutable: locating the data section (lines 594-624) -/

/-- The two DWORD fields of IMAGE_SECTION_HEADER (winnt.h) that the section loop reads. -/
structure IMAGE_SECTION_HEADER where
  PointerToRawData : Nat
  SizeOfRawData : Nat
  deriving DecidableEq, Repr

/-- The sum sh.PointerToRawData + sh.SizeOfRawData as the code takes it, in DWORD
(unsigned 32-bit) arithmetic. -/
def IMAGE_SECTION_HEADER.rawEnd (sh : IMAGE_SECTION_HEADER) : Nat :=
  (sh.PointerToRawData + sh.SizeOfRawData) % 2 ^ 32

/-- One pass of the loop body on lines 614-617: offset becomes the section's end
when that is greater. -/
def sectionStep (offset : Nat) (sh : IMAGE_SECTION_HEADER) : Nat :=
  if sh.rawEnd > offset then sh.rawEnd else offset

/-- Lines 612-619: DWORD offset = 0, the loop over the section headers read from
the table, and data_location = offset. -/
def data_location_windows (sections : List IMAGE_SECTION_HEADER) : Nat :=
  sections.foldl sectionStep 0

/-- The constant IMAGE_NT_SIGNATURE of winnt.h, the bytes P E 0 0. -/
def IMAGE_NT_SIGNATURE : Nat := 0x00004550

/-- Lines 599-619 of LoadCompiledExecutable on the windows build, given the
signature read at the header location and the section headers read from the
table: none stands for the return of -1 on a signature mismatch. -/
def LoadCompiledExecutable_windows (sig : Nat) (sections : List IMAGE_SECTION_HEADER) :
    Option Nat :=
  if sig ≠ IMAGE_NT_SIGNATURE then none else some (data_location_windows sections)

/-! ## Context pool: RequestContextCallback and ReturnContextCallback (lines 846-868) -/

/-- The free list g_ctxPool (front first, so back() is the last element) with the
engine's record of contexts: contexts are numbered in order of creation, created
is the number CreateContext has made so far, and the three lists record on which
contexts SetExceptionCallback, SetLineCallback and Unprepare were called. -/
structure Pool where
  g_ctxPool : List Nat
  created : Nat
  exception_callbacks : List Nat
  line_callbacks : List Nat
  unprepared : List Nat
  deriving DecidableEq, Repr

/-- The pool at program start: an empty free list and no context created. -/
def Pool.initial : Pool := ⟨[], 0, [], [], []⟩

/-- The locked block of RequestContextCallback (lines 849-856): when the free list
is not empty its back is taken and removed.  The result is none when pool_size is 0. -/
def Pool.locked_request (p : Pool) : Option Nat × Pool :=
  match p.g_ctxPool.getLast? with
  | some ctx => (some ctx, { p with g_ctxPool := p.g_ctxPool.dropLast })
  | none => (none, p)

/-- Lines 857-861 of RequestContextCallback: CreateContext (taken to succeed, the
source does not test its result), then SetExceptionCallback and SetLineCallback
on the new context. -/
def Pool.create (p : Pool) : Nat × Pool :=
  (p.created,
    { p with created := p.created + 1,
             exception_callbacks := p.exception_callbacks ++ [p.created],
             line_callbacks := p.line_callbacks ++ [p.created] })

/-- RequestContextCallback (lines 846-863): the returned context and the pool left. -/
def RequestContextCallback (p : Pool) : Nat × Pool :=
  match p.locked_request with
  | (some ctx, p1) => (ctx, p1)
  | (none, p1) => p1.create

/-- ReturnContextCallback (lines 864-868): Unprepare, then push_back under the lock. -/
def ReturnContextCallback (p : Pool) (ctx : Nat) : Pool :=
  { p with unprepared := p.unprepared ++ [ctx], g_ctxPool := p.g_ctxPool ++ [ctx] }

/-- A call made on the pool by a single caller. -/
inductive PoolOp
  | request
  | release (ctx : Nat)
  deriving DecidableEq, Repr

/-- The pool after a sequence of calls, from left to right. -/
def Pool.run (p : Pool) (ops : List PoolOp) : Pool :=
  ops.foldl (fun q op =>
    match op with
    | PoolOp.request => (RequestContextCallback q).2
    | PoolOp.release ctx => ReturnContextCallback q ctx) p

/-- Several callers sharing the pool: held lists which caller holds which context,
creating lists the callers that left the locked block of RequestContextCallback
with pool_size = 0 and have not yet created their context. -/
structure Callers where
  pool : Pool
  held : List (Nat × Nat)
  creating : List Nat
  deriving DecidableEq, Repr

/-- No caller holds anything and the pool is in its initial state. -/
def Callers.initial : Callers := ⟨Pool.initial, [], []⟩

/-- The atomic steps of the callers: the locked block of RequestContextCallback,
the creation that follows it when the list was empty, and ReturnContextCallback. -/
inductive PoolAction
  | locked_request (caller : Nat)
  | create (caller : Nat)
  | release (caller ctx : Nat)
  deriving DecidableEq, Repr

/-- One atomic step.  A creation is possible only for a caller that saw an empty
list, and a release only of a context the caller holds; otherwise none. -/
def Callers.step (s : Callers) : PoolAction → Option Callers
  | PoolAction.locked_request t =>
    match s.pool.locked_request with
    | (some ctx, p1) => some { pool := p1, held := (t, ctx) :: s.held, creating := s.creating }
    | (none, p1) => some { pool := p1, held := s.held, creating := t :: s.creating }
  | PoolAction.create t =>
    if t ∈ s.creating then
      some { pool := s.pool.create.2, held := (t, s.pool.create.1) :: s.held,
             creating := s.creating.erase t }
    else none
  | PoolAction.release t ctx =>
    if (t, ctx) ∈ s.held then
      some { pool := ReturnContextCallback s.pool ctx, held := s.held.erase (t, ctx),
             creating := s.creating }
    else none

/-- An interleaving: the steps taken one after the other; none when a step is not
possible. -/
def Callers.run : Callers → List PoolAction → Option Callers
  | s, [] => some s
  | s, a :: rest =>
    match s.step a with
    | none => none
    | some s1 => Callers.run s1 rest

/-- The contexts on the free list and the contexts held, together, are exactly the
contexts created so far, each once. -/
def Callers.accounted (s : Callers) : Prop :=
  (s.pool.g_ctxPool ++ s.held.map Prod.snd).Perm (List.range s.pool.created)

/-! ## PragmaCallback (lines 719-754) -/

/-- The token classes of asETokenClass (angelscript.h). -/
inductive asETokenClass
  | asTC_UNKNOWN
  | asTC_KEYWORD
  | asTC_VALUE
  | asTC_IDENTIFIER
  | asTC_COMMENT
  | asTC_WHITESPACE
  deriving DecidableEq, Repr

/-- The globals PragmaCallback writes, with the plugin names for which the
message failed to load plugin was written. -/
structure PragmaGlobals where
  g_IncludeDirs : List (List Char)
  g_stub : List Char
  g_compiled_basename : List Char
  g_platform : List Char
  g_bcCompressionLevel : Int
  g_make_console : Bool
  plugin_errors : List (List Char)
  deriving DecidableEq, Repr

/-- The globals as initialised on lines 96-115: level 9, no stub, platform auto. -/
def PragmaGlobals.initial : PragmaGlobals :=
  { g_IncludeDirs := [], g_stub := [], g_compiled_basename := [],
    g_platform := "auto".toList, g_bcCompressionLevel := 9, g_make_console := false,
    plugin_errors := [] }

/-- Lines 724-733: the text built from the tokens ParseToken finds in the pragma,
a blank and the token for every identifier, keyword and value; none stands for
the return of -1 at a token of class asTC_UNKNOWN. -/
def cleanTokens : List (asETokenClass × List Char) → Option (List Char)
  | [] => some []
  | (cls, token) :: rest =>
    if cls = asETokenClass.asTC_UNKNOWN then none
    else
      match cleanTokens rest with
      | none => none
      | some text =>
        if cls = asETokenClass.asTC_IDENTIFIER ∨ cls = asETokenClass.asTC_KEYWORD ∨
            cls = asETokenClass.asTC_VALUE then some (' ' :: token ++ text)
        else some text

/-- The digits at the front of a text as a number, most significant first. -/
def leadingDigits : List Char → Nat → Nat
  | [], acc => acc
  | c :: rest, acc => if c.isDigit then leadingDigits rest (acc * 10 + (c.toNat - 48)) else acc

/-- The C library call strtol(text, NULL, 10): leading white space is skipped, a
sign is accepted, the digits that follow are converted (0 when there are none),
and the result is limited to the range of long, whose greatest value LONG_MAX
depends on the target. -/
def strtol (LONG_MAX : Int) (text : List Char) : Int :=
  let t := text.dropWhile Char.isWhitespace
  let v : Int :=
    match t with
    | '-' :: rest => - (leadingDigits rest 0 : Int)
    | '+' :: rest => (leadingDigits rest 0 : Int)
    | _ => (leadingDigits t 0 : Int)
  if v > LONG_MAX then LONG_MAX else if v < -LONG_MAX - 1 then -LONG_MAX - 1 else v

/-- PragmaCallback (lines 719-754), given the tokens of the pragma text, the
constant LONG_MAX and what load_nvgt_plugin returns for a name: the returned int
and the globals afterwards.  The erase on line 734 is taken to leave an empty
text empty. -/
def PragmaCallback (LONG_MAX : Int) (load_nvgt_plugin : List Char → Bool) (g : PragmaGlobals)
    (tokens : List (asETokenClass × List Char)) : Int × PragmaGlobals :=
  match cleanTokens tokens with
  | none => (-1, g)
  | some text =>
    let cleanText := text.drop 1
    if cleanText.take 8 = "include ".toList then
      (0, { g with g_IncludeDirs := cleanText.drop 8 :: g.g_IncludeDirs })
    else if cleanText.take 5 = "stub ".toList then
      (0, { g with g_stub := cleanText.drop 5 })
    else if cleanText.take 7 = "plugin ".toList then
      if load_nvgt_plugin (cleanText.drop 7) then (0, g)
      else (0, { g with plugin_errors := g.plugin_errors ++ [cleanText.drop 7] })
    else if cleanText.take 18 = "compiled_basename ".toList then
      (0, { g with g_compiled_basename :=
              if cleanText.drop 18 = "*".toList then [] else cleanText.drop 18 })
    else if cleanText.take 9 = "platform ".toList then
      (0, { g with g_platform := cleanText.drop 9 })
    else if cleanText.take 21 = "bytecode_compression ".toList then
      let level := toInt32 (strtol LONG_MAX (cleanText.drop 21))
      if level < 0 ∨ level > 9 then (-1, { g with g_bcCompressionLevel := level })
      else (0, { g with g_bcCompressionLevel := level })
    else if cleanText = "console".toList then
      (0, { g with g_make_console := true })
    else (-1, g)

/-- The globals after a sequence of PragmaCallback calls, one per pragma. -/
def PragmaCallback_all (LONG_MAX : Int) (load_nvgt_plugin : List Char → Bool)
    (g : PragmaGlobals) (pragmas : List (List (asETokenClass × List Char))) : PragmaGlobals :=
  pragmas.foldl (fun q tokens => (PragmaCallback LONG_MAX load_nvgt_plugin q tokens).2) g

/-- The tokens of the pragma text bytecode_compression 10. -/
def pragmaLevel10 : List (asETokenClass × List Char) :=
  [(asETokenClass.asTC_IDENTIFIER, "bytecode_compression".toList),
   (asETokenClass.asTC_WHITESPACE, " ".toList),
   (asETokenClass.asTC_VALUE, "10".toList)]

/-- The tokens of the pragma text bytecode_compression 4. -/
def pragmaLevel4 : List (asETokenClass × List Char) :=
  [(asETokenClass.asTC_IDENTIFIER, "bytecode_compression".toList),
   (asETokenClass.asTC_WHITESPACE, " ".toList),
   (asETokenClass.asTC_VALUE, "4".toList)]

/-! ## Sequences of Read calls, and a codec that holds its input back -/

/-- The stream after a sequence of Read calls with the given sizes. -/
def readAll (Z : ZLib) (s : NVGTBytecodeStream Z) (sizes : List Nat) : NVGTBytecodeStream Z :=
  sizes.foldl (fun q size => (NVGTBytecodeStream.Read Z q size).stream) s

/-- A codec that keeps all input inside the compressor until Z_FINISH and then
hands it out unchanged, as far as it fits; inflate copies.  Like a compressor at
work on compressible input, its deflate consumes input without producing output. -/
def bufferingZ : ZLib where
  DState := List Byte
  IState := Unit
  deflateInit := fun _ => []
  deflate := fun pending input avail_out flush =>
    if flush = Z_FINISH then
      ((pending ++ input).drop avail_out, input.length, (pending ++ input).take avail_out,
        if (pending ++ input).length ≤ avail_out then Z_STREAM_END else Z_OK)
    else (pending ++ input, input.length, [], Z_OK)
  inflateInit := ()
  inflate := fun _ input avail_out =>
    ((), min input.length avail_out, input.take avail_out,
      if avail_out ≤ input.length ∧ 0 < avail_out then Z_OK else Z_BUF_ERROR)
  encrypt := fun b => b
  decrypt := fun b => b

/-! ## The executable file: header step, appended bytes and how they are read back -/

/-- The two bytes of a 16-bit value, least significant first (the byte order of
the supported targets, which the Poco reader and writer use unflipped). -/
def bytesLE16 (v : Nat) : List Byte := [byte v, byte (v / 256)]

/-- The four bytes of a 32-bit value, least significant first. -/
def bytesLE32 (v : Nat) : List Byte :=
  [byte v, byte (v / 256), byte (v / 65536), byte (v / 16777216)]

/-- The 32-bit value held by four bytes, least significant first. -/
def fromLE32 : List Byte → Nat
  | [b0, b1, b2, b3] => b0.val + 256 * b1.val + 65536 * b2.val + 16777216 * b3.val
  | _ => 0

/-- The overload write7BitEncoded(UInt32 value) of the Poco writer: at most five
bytes. -/
def write7BitEncoded32 (value : Nat) : List Byte :=
  write7BitEncodedLoop 5 (value % 2 ^ 32)

/-- Poco BinaryReader::read7BitEncoded(UInt32&) on the file stream: per iteration
one char is read, value += (c & 0x7F) << s in 32-bit arithmetic, s += 7, until a
char without bit 0x80; gives the value and the bytes left.  At the end of the
file the read stores nothing, c stays 0 and the loop ends. -/
def read7BitEncoded32Loop : List Byte → Nat → Nat → Nat × List Byte
  | [], value, _ => (value, [])
  | c :: rest, value, sh =>
    if c.val / 128 ≠ 0 then
      read7BitEncoded32Loop rest ((value + ((c.val % 128) <<< sh) % 2 ^ 32) % 2 ^ 32) (sh + 7)
    else ((value + ((c.val % 128) <<< sh) % 2 ^ 32) % 2 ^ 32, rest)

/-- The call br.read7BitEncoded(code_size) on line 626. -/
def read7BitEncoded32 (data : List Byte) : Nat × List Byte :=
  read7BitEncoded32Loop data 0 0

/-- The bytes an appended item puts into the file, with packs the bytes
write_embedded_packs writes.  A block read from NULL is taken to write nothing. -/
def Appended.bytes (packs : List Byte) : Appended → List Byte
  | Appended.embedded_packs => packs
  | Appended.length_field value => write7BitEncoded32 value
  | Appended.bytecode_block code code_size => (code.getD []).take code_size
  | Appended.trailer value => bytesLE32 (toUInt32 value)

/-- Lines 532 and 547-558 of CompileExecutable: stub_size is the size of the copied
stub, and the items are appended at its end; gives the returned int and the file. -/
def CompileExecutable_file (NVGT_BYTECODE_NUMBER_XOR : Nat) (windows : Bool)
    (stub packs : List Byte) (saved : Int × Option (List Byte)) : Int × List Byte :=
  ((CompileExecutable_append NVGT_BYTECODE_NUMBER_XOR windows stub.length saved).1,
    stub ++ (CompileExecutable_append NVGT_BYTECODE_NUMBER_XOR windows stub.length saved).2.flatMap
      (Appended.bytes packs))

/-- Lines 621-622 of LoadCompiledExecutable off windows: the UInt32 read 4 bytes
before the end of the file; none when the file has fewer than 4 bytes. -/
def data_location_trailer (file : List Byte) : Option Nat :=
  if file.length < 4 then none else some (fromLE32 (file.drop (file.length - 4)))

/-- Lines 626-629 of LoadCompiledExecutable: the length is read and XOR-ed with
NVGT_BYTECODE_NUMBER_XOR, and code_size bytes are read into code; gives code and
code_size, the arguments of LoadCompiledScript. -/
def LoadCompiledExecutable_code (NVGT_BYTECODE_NUMBER_XOR : Nat) (data : List Byte) :
    List Byte × Nat :=
  ((read7BitEncoded32 data).2.take
      (((read7BitEncoded32 data).1 ^^^ NVGT_BYTECODE_NUMBER_XOR) % 2 ^ 32),
    ((read7BitEncoded32 data).1 ^^^ NVGT_BYTECODE_NUMBER_XOR) % 2 ^ 32)

/-- Lines 624-629 of LoadCompiledExecutable on the bytes from data_location on,
with load_embedded_packs a reader that reports success and leaves the bytes it
did not consume; none stands for the return of -1. -/
def LoadCompiledExecutable_read (NVGT_BYTECODE_NUMBER_XOR : Nat)
    (load_embedded_packs : List Byte → Bool × List Byte) (data : List Byte) :
    Option (List Byte × Nat) :=
  if (load_embedded_packs data).1 then
    some (LoadCompiledExecutable_code NVGT_BYTECODE_NUMBER_XOR (load_embedded_packs data).2)
  else none

/-- LoadCompiledExecutable off windows (lines 621-629), up to the arguments it
passes to LoadCompiledScript. -/
def LoadCompiledExecutable_trailer (NVGT_BYTECODE_NUMBER_XOR : Nat)
    (load_embedded_packs : List Byte → Bool × List Byte) (file : List Byte) :
    Option (List Byte × Nat) :=
  match data_location_trailer file with
  | none => none
  | some data_location =>
    LoadCompiledExecutable_read NVGT_BYTECODE_NUMBER_XOR load_embedded_packs
      (file.drop data_location)

/-- Writing bytes at a position of the file: bytes already there are replaced, a
write past the end lengthens the file, a gap before the position reads as 0. -/
def writeAt (img : List Byte) (pos : Nat) (bs : List Byte) : List Byte :=
  (img ++ List.replicate (pos - img.length) 0).take pos ++ bs ++ img.drop (pos + bs.length)

/-- The four bytes at a position of the file as a 32-bit value; none when the
file ends before them. -/
def readLE32At (img : List Byte) (pos : Nat) : Option Nat :=
  if pos + 4 ≤ img.length then some (fromLE32 ((img.drop pos).take 4)) else none

/-- Lines 533-545 of CompileExecutable on the copied stub: on windows the bytes
M Z are written at offset 0 and, when g_make_console is set, the int at offset 60
is read, 92 is added in int arithmetic and the 16-bit value 3 is written at that
offset.  Gives the image and whether the stream is still good: a read past the
end of the file or a seek to a negative offset leaves it failed (or raises the
exception that ends the build) and nothing more is written. -/
def CompileExecutable_header (windows g_make_console : Bool) (img : List Byte) :
    List Byte × Bool :=
  if !windows then (img, true)
  else if !g_make_console then (writeAt img 0 [77, 90], true)
  else
    match readLE32At (writeAt img 0 [77, 90]) 60 with
    | none => (writeAt img 0 [77, 90], false)
    | some l =>
      if toInt32 (toInt32 l + 92) < 0 then (writeAt img 0 [77, 90], false)
      else (writeAt (writeAt img 0 [77, 90]) (toInt32 (toInt32 l + 92)).toNat (bytesLE16 3), true)

/-- The data section as the specification lists it: plugin records, resource
records, engine property table, obfuscated length of the bytecode block, and the
bytecode block. -/
def specDataSection (NVGT_BYTECODE_NUMBER_XOR : Nat) (plugins packs : List Byte)
    (props : List Nat) (block : List Byte) : List Byte :=
  plugins ++ packs ++ props.flatMap write7BitEncoded ++
    write7BitEncoded32 ((block.length ^^^ NVGT_BYTECODE_NUMBER_XOR) % 2 ^ 32) ++ block

/-- The first 64 bytes of a stub that starts with M Z and whose header-location
pointer at offset 60 holds the bytes 00 00 00 80, the value 2^31. -/
def headerHuge : List Byte := [77, 90] ++ List.replicate 58 0 ++ [0, 0, 0, 128]

/-- A stub image of 2^31 + 94 bytes: the 64 bytes above followed by zeros. -/
def stubHuge : List Byte := headerHuge ++ List.replicate 2147483678 0

/-- A stub image of 200 bytes that starts with M Z, holds the pointer 100 at offset
60 and the subsystem value 2 at offset 192. -/
def stubSmall : List Byte :=
  [77, 90] ++ List.replicate 58 0 ++ [100, 0, 0, 0] ++ List.replicate 128 0 ++ [2, 0] ++
    List.replicate 6 0

/-- The Write calls SaveCompiledScript makes on the codec stream, in order: one
per byte of the plugin records, one per byte of the engine property table, then
the calls of the virtual machine. -/
def codecChunks (asEP_LAST_PROPERTY : Nat) (e : SaveEnv) : List (List Byte) :=
  e.plugins.map (fun b => [b]) ++
    ((List.range asEP_LAST_PROPERTY).flatMap
      (fun i => write7BitEncoded (e.GetEngineProperty i))).map (fun b => [b]) ++
    e.bytecode

/-- An engine with module nvgt_game, one plugin record byte bb, one engine
property of value 5 and the bytecode bytes 1, 2, 3. -/
def saveEnvLayout : SaveEnv :=
  { has_module := true, plugins := [187], GetEngineProperty := fun _ => 5,
    bytecode := [[1, 2, 3]], save_rc := 0 }

/-- The same engine without plugin records, to save the bytecode alone. -/
def saveEnvBytecodeOnly : SaveEnv :=
  { has_module := true, plugins := [], GetEngineProperty := fun _ => 5,
    bytecode := [[1, 2, 3]], save_rc := 0 }

/-- A loader side whose plugin loader reads one byte and whose virtual machine
accepts the stream. -/
def loadEnvLayout : LoadEnv storedZ :=
  { module_ok := true,
    load_serialized_nvgt_plugins := fun istr => (true, (istr.read1 true 0).1),
    LoadByteCode := fun _ => 0 }

/-- A run in which int main() returned 7 and a script called Exit(42) while the
supervisor was running: the entry context is in the finished state.  The module
has no on_exit hook. -/
def envExit42Finished : ScriptEnv :=
  { envReturns7 with mod := some ⟨true, false, false, false⟩, run_exits := [42] }

/-- The stream s is initialised for inflate and, by the relation R between codec
state, input left and plain bytes, has exactly the bytes bs still to deliver. -/
def NVGTBytecodeStream.yields {Z : ZLib} (R : Z.IState → List Byte → List Byte → Prop)
    (s : NVGTBytecodeStream Z) (bs : List Byte) : Prop :=
  ∃ i, s.zstate = ZState.inflating i ∧ R i s.next_in bs

/-- The bytes of the engine property table written on line 497. -/
def propertyTable (asEP_LAST_PROPERTY : Nat) (e : SaveEnv) : List Byte :=
  (List.range asEP_LAST_PROPERTY).flatMap (fun i => write7BitEncoded (e.GetEngineProperty i))

/-! ## Properties of the run scheduler -/

/-- When the entry point was scheduled, ExecuteScript went through lines 662-716
with a module, an entry point and successful global initialisation. -/
theorem ExecuteScript_scheduled (env : ScriptEnv)
    (hrun : Event.AddContext Ctx.entry ∈ (ExecuteScript env).events) :
    ∃ m func before, env.mod = some m ∧ m.entry = some func ∧ ¬ env.reset_globals < 0 ∧
      ExecuteScript env = runMain env m func before := by
  unfold ExecuteScript at hrun ⊢
  cases hm : env.mod with
  | none => simp [hm] at hrun
  | some m =>
    cases hf : m.entry with
    | none => simp [hm, hf] at hrun
    | some func =>
      simp only [hm, hf] at hrun ⊢
      by_cases hr : env.reset_globals < 0
      · exfalso
        revert hrun
        simp only [runMain, hr, if_true]
        split_ifs <;> simp
      · split_ifs at hrun ⊢ <;> first
          | (exfalso; revert hrun; simp; done)
          | exact ⟨m, func, _, rfl, hf, hr, rfl⟩

/-- The returned int of lines 662-716 does not depend on the on_exit hook. -/
theorem runMain_ret (env : ScriptEnv) (m : Module) (func : EntryPoint) (before : List Event)
    (hr : ¬ env.reset_globals < 0) :
    (runMain env m func before).ret =
      (exitCode func env.state env.return_value (env.run_exits.foldl Exit env.g0).g_retcode
        env.answer).1 := by
  simp [runMain, hr]

/-- The exit code computed on lines 677-699, by state of the entry context. -/
theorem exitCode_fst (func : EntryPoint) (state return_value g_retcode answer : Int) :
    (exitCode func state return_value g_retcode answer).1 =
      (if state = asEXECUTION_FINISHED then
        (if func = EntryPoint.int_main then return_value else 0)
      else if state = asEXECUTION_EXCEPTION then -1
      else if state = asEXECUTION_ABORTED then g_retcode
      else -1) := by
  unfold exitCode
  by_cases h0 : state = asEXECUTION_FINISHED
  · cases func <;> simp [h0, EntryPoint.GetReturnTypeId, asTYPEID_INT32, asTYPEID_VOID]
  · simp only [ne_eq, h0, not_false_eq_true, if_true, if_false]
    split_ifs <;> rfl

/-- Lines 677-699 never execute the on_exit hook. -/
theorem exitCode_no_hook (func : EntryPoint) (state return_value g_retcode answer : Int) :
    Event.Execute Ctx.hook ∉ (exitCode func state return_value g_retcode answer).2 := by
  unfold exitCode
  by_cases h0 : state = asEXECUTION_FINISHED
  · simp only [ne_eq, h0, not_true_eq_false, if_false]
    split_ifs <;> simp
  · simp only [ne_eq, h0, not_false_eq_true, if_true]
    by_cases h1 : state = asEXECUTION_EXCEPTION
    · simp only [h1, if_true]
      split_ifs <;> simp
    · simp only [h1, if_false]
      split_ifs <;> simp

/-- C5: when the entry point was scheduled and the entry context ends in the
finished state, ExecuteScript returns the entry point's int return value if the
entry point is int main() and 0 if it is void main(); the result is the same
whether or not the module has an on_exit hook, whether or not the hook gets a
context, and whatever Exit calls the hook makes. -/
theorem ExecuteScript_finished_exit_code (env : ScriptEnv)
    (hrun : Event.AddContext Ctx.entry ∈ (ExecuteScript env).events)
    (hfin : env.state = asEXECUTION_FINISHED) :
    ∃ m func, env.mod = some m ∧ m.entry = some func ∧
      (ExecuteScript env).ret = (if func = EntryPoint.int_main then env.return_value else 0) ∧
      ∀ (on_exit ok : Bool) (exits : List Int),
        (ExecuteScript (env.withHook on_exit ok exits)).ret = (ExecuteScript env).ret := by
  obtain ⟨m, func, before, hm, hf, hr, heq⟩ := ExecuteScript_scheduled env hrun
  have hcode : ∀ g a, (exitCode func env.state env.return_value g a).1
      = (if func = EntryPoint.int_main then env.return_value else 0) := by
    intro g a
    rw [exitCode_fst, if_pos hfin]
  have hret : (ExecuteScript env).ret
      = (if func = EntryPoint.int_main then env.return_value else 0) := by
    rw [heq, runMain_ret env m func before hr, hcode]
  refine ⟨m, func, hm, hf, hret, ?_⟩
  intro on_exit ok exits
  rw [hret]
  have hf2 : ({ m with on_exit := on_exit } : Module).entry = some func := by
    simpa [Module.entry] using hf
  have hmain : ∀ (env2 : ScriptEnv) (m2 : Module) (b2 : List Event),
      env2.reset_globals = env.reset_globals → env2.state = env.state →
      env2.return_value = env.return_value →
      (runMain env2 m2 func b2).ret
        = (if func = EntryPoint.int_main then env.return_value else 0) := by
    intro env2 m2 b2 h1 h2 h3
    rw [runMain_ret _ m2 func b2 (by rw [h1]; exact hr), h2, h3]
    exact hcode _ _
  generalize (if func = EntryPoint.int_main then env.return_value else 0) = v at hmain ⊢
  unfold ExecuteScript at hrun ⊢
  simp only [hm, hf] at hrun
  simp only [ScriptEnv.withHook, hm, Option.map_some', hf2]
  split_ifs at hrun ⊢ <;> first
    | (exfalso; revert hrun; simp; done)
    | exact hmain _ _ _ rfl rfl rfl

/-- C5 at a concrete run: int main() returns 7 and on_exit calls Exit(5); the
result is 7, also without the hook. -/
theorem ExecuteScript_finished_exit_code_witness :
    Event.AddContext Ctx.entry ∈ (ExecuteScript envReturns7).events ∧
    envReturns7.state = asEXECUTION_FINISHED ∧
    ∃ m func, envReturns7.mod = some m ∧ m.entry = some func ∧
      (ExecuteScript envReturns7).ret
        = (if func = EntryPoint.int_main then envReturns7.return_value else 0) ∧
      ∀ (on_exit ok : Bool) (exits : List Int),
        (ExecuteScript (envReturns7.withHook on_exit ok exits)).ret
          = (ExecuteScript envReturns7).ret :=
  ⟨by decide, by decide, ExecuteScript_finished_exit_code envReturns7 (by decide) (by decide)⟩

/-- C6 as stated fails: a script calls Exit(42) while the supervisor is running,
but int main() had returned 7 and the entry context is in the finished state;
ExecuteScript returns 7, not 42.  Likewise, when the entry context ends with an
exception after Exit(9), ExecuteScript returns -1, not 9. -/
theorem ExecuteScript_Exit_code_unused_unless_aborted :
    (Event.AddContext Ctx.entry ∈ (ExecuteScript envExit42Finished).events ∧
      envExit42Finished.run_exits = [42] ∧
      envExit42Finished.state = asEXECUTION_FINISHED ∧
      (ExecuteScript envExit42Finished).globals.g_retcode = 42 ∧
      (ExecuteScript envExit42Finished).ret = 7 ∧
      (ExecuteScript envExit42Finished).ret ≠ 42) ∧
    (Event.AddContext Ctx.entry ∈ (ExecuteScript envException).events ∧
      envException.run_exits = [9] ∧
      envException.state = asEXECUTION_EXCEPTION ∧
      (ExecuteScript envException).ret = -1 ∧
      (ExecuteScript envException).ret ≠ 9) := by
  decide

/-- C6 amended: when the entry point was scheduled, a script's Exit(c) is the exit
request that stops the supervisor (the last Exit call before the loop ends) and
the entry context is left in the aborted state, ExecuteScript returns c, whatever
else the run did and whatever the on_exit hook does. -/
theorem ExecuteScript_exit_code_after_Exit (env : ScriptEnv) (c : Int) (earlier : List Int)
    (hrun : Event.AddContext Ctx.entry ∈ (ExecuteScript env).events)
    (hexit : env.run_exits = earlier ++ [c])
    (habort : env.state = asEXECUTION_ABORTED) :
    (ExecuteScript env).ret = c := by
  obtain ⟨m, func, before, _, _, hr, heq⟩ := ExecuteScript_scheduled env hrun
  rw [heq, runMain_ret env m func before hr, hexit, List.foldl_append]
  have hfold : (List.foldl Exit (List.foldl Exit env.g0 earlier) [c]).g_retcode = c := rfl
  rw [hfold, exitCode_fst, habort]
  simp [asEXECUTION_ABORTED, asEXECUTION_FINISHED, asEXECUTION_EXCEPTION]

/-- C6 amended, at a concrete run: Exit(42) with the entry context left aborted
gives 42. -/
theorem ExecuteScript_exit_code_after_Exit_witness :
    Event.AddContext Ctx.entry ∈ (ExecuteScript envExit42).events ∧
    envExit42.run_exits = [] ++ [42] ∧ envExit42.state = asEXECUTION_ABORTED ∧
    (ExecuteScript envExit42).ret = 42 :=
  ⟨by decide, by decide, by decide,
    ExecuteScript_exit_code_after_Exit envExit42 42 [] (by decide) (by decide) (by decide)⟩

/-- C7: when the entry point was scheduled and the entry context ends in the
exception state, ExecuteScript returns -1, for every answer to the clipboard
question and every recorded g_retcode. -/
theorem ExecuteScript_exception_exit_code (env : ScriptEnv)
    (hrun : Event.AddContext Ctx.entry ∈ (ExecuteScript env).events)
    (hexc : env.state = asEXECUTION_EXCEPTION) :
    (ExecuteScript env).ret = -1 := by
  obtain ⟨m, func, before, _, _, hr, heq⟩ := ExecuteScript_scheduled env hrun
  rw [heq, runMain_ret env m func before hr, exitCode_fst, hexc]
  simp [asEXECUTION_FINISHED, asEXECUTION_EXCEPTION]

/-- C7 at a concrete run: exception after Exit(9) was recorded, answer yes. -/
theorem ExecuteScript_exception_exit_code_witness :
    Event.AddContext Ctx.entry ∈ (ExecuteScript envException).events ∧
    envException.state = asEXECUTION_EXCEPTION ∧ (ExecuteScript envException).ret = -1 :=
  ⟨by decide, by decide, ExecuteScript_exception_exit_code envException (by decide) (by decide)⟩

/-- C8 fails on the code: after Exit(0) the entry context ends aborted, r becomes
g_retcode = 0, the test r != asEXECUTION_ABORTED on line 692 succeeds and
DoneWithContext is called on the aborted entry context. -/
theorem ExecuteScript_aborted_entry_recycled :
    envExit0.state = asEXECUTION_ABORTED ∧
      Event.DoneWithContext Ctx.entry ∈ (ExecuteScript envExit0).events := by
  decide

/-- C9 as stated fails: with a preglobals hook whose Prepare fails, ExecuteScript
returns -1, not the success status 0. -/
theorem ExecuteScript_preglobals_failure_not_success :
    (∃ m, envPrepareFails.mod = some m ∧ m.preglobals = true) ∧ envPrepareFails.pre_prepare < 0 ∧
      (ExecuteScript envPrepareFails).ret = -1 ∧ (ExecuteScript envPrepareFails).ret ≠ 0 := by
  decide

/-- C9 amended: in a module with an entry point and bool preglobals(), once a
context was obtained, a hook that returns false without Prepare or Execute
reporting an error makes ExecuteScript return 0, and a hook whose Prepare or
Execute reports an error (a negative result) makes it return -1; in both cases
globals are not initialised and the entry point is not scheduled. -/
theorem ExecuteScript_preglobals_early_exit (env : ScriptEnv) (m : Module) (func : EntryPoint)
    (hm : env.mod = some m) (hf : m.entry = some func) (hpre : m.preglobals = true)
    (hctx : env.request_ok = true)
    (hhook : env.pre_prepare < 0 ∨ env.pre_execute < 0 ∨ env.pre_return_byte = 0) :
    (ExecuteScript env).ret = (if env.pre_prepare < 0 ∨ env.pre_execute < 0 then -1 else 0) ∧
      Event.ResetGlobalVars ∉ (ExecuteScript env).events ∧
      Event.globals_initialised ∉ (ExecuteScript env).events ∧
      Event.AddContext Ctx.entry ∉ (ExecuteScript env).events := by
  unfold ExecuteScript
  simp only [hm, hf, hpre, hctx]
  by_cases h1 : env.pre_prepare < 0
  · simp [h1]
  · by_cases h2 : env.pre_execute < 0
    · simp [h1, h2]
    · have h3 : env.pre_return_byte = 0 := by tauto
      simp [h1, h2, h3]

/-- C9 amended, at a run whose preglobals hook returns false: the result is 0. -/
theorem ExecuteScript_preglobals_early_exit_witness :
    envPreglobalsFalse.pre_return_byte = 0 ∧
    (ExecuteScript envPreglobalsFalse).ret = 0 ∧
    (ExecuteScript envPreglobalsFalse).ret
        = (if envPreglobalsFalse.pre_prepare < 0 ∨ envPreglobalsFalse.pre_execute < 0
            then -1 else 0) ∧
      Event.ResetGlobalVars ∉ (ExecuteScript envPreglobalsFalse).events ∧
      Event.globals_initialised ∉ (ExecuteScript envPreglobalsFalse).events ∧
      Event.AddContext Ctx.entry ∉ (ExecuteScript envPreglobalsFalse).events :=
  ⟨by decide, by decide,
    ExecuteScript_preglobals_early_exit envPreglobalsFalse ⟨true, false, true, true⟩
      EntryPoint.int_main rfl rfl rfl rfl (by decide)⟩

/-- C10 as stated fails: in a module with int main(), bool preglobals() and void
on_exit(), a preglobals hook returning false makes ExecuteScript return (with 0)
without the on_exit hook having been executed. -/
theorem ExecuteScript_early_exit_skips_on_exit :
    (∃ m, envPreglobalsFalse.mod = some m ∧ m.entry ≠ none ∧ m.on_exit = true) ∧
      (ExecuteScript envPreglobalsFalse).ret = 0 ∧
      Event.Execute Ctx.hook ∉ (ExecuteScript envPreglobalsFalse).events := by
  decide

/-- C10 amended: in a module with an entry point and void on_exit(), the hook is
executed exactly once before ExecuteScript returns on every path on which the
entry point was scheduled (whatever state the entry context ends in) and
AddContext supplies a context for the hook; on every other path it is not executed. -/
theorem ExecuteScript_on_exit_runs_once (env : ScriptEnv) (m : Module) (func : EntryPoint)
    (hm : env.mod = some m) (hf : m.entry = some func) (hexit : m.on_exit = true) :
    (ExecuteScript env).events.count (Event.Execute Ctx.hook)
      = (if Event.AddContext Ctx.entry ∈ (ExecuteScript env).events ∧ env.hook_ctx_ok = true
          then 1 else 0) := by
  have hcode : ∀ st rv g a,
      (exitCode func st rv g a).2.count (Event.Execute Ctx.hook) = 0 := by
    intro st rv g a
    rw [List.count_eq_zero]
    exact exitCode_no_hook func st rv g a
  have hmain : ∀ before : List Event,
      before.count (Event.Execute Ctx.hook) = 0 →
      Event.AddContext Ctx.entry ∉ before →
      (runMain env m func before).events.count (Event.Execute Ctx.hook)
        = (if Event.AddContext Ctx.entry ∈ (runMain env m func before).events ∧
              env.hook_ctx_ok = true then 1 else 0) := by
    intro before hb hnb
    unfold runMain
    by_cases hr : env.reset_globals < 0
    · simp [hr, hb, hnb, List.count_append]
    · cases hok : env.hook_ctx_ok <;>
        simp [hr, hb, List.count_append, hcode, runOnExit, hexit, hok, teardown]
  unfold ExecuteScript
  simp only [hm, hf]
  by_cases h0 : (!env.request_ok) = true
  · simp [h0]
  · simp only [h0, if_false]
    by_cases h1 : m.preglobals = true
    · simp only [h1, if_true]
      by_cases h2 : env.pre_prepare < 0
      · simp [h2]
      · simp only [h2, if_false]
        by_cases h3 : env.pre_execute < 0
        · simp [h3]
        · simp only [h3, if_false]
          by_cases h4 : env.pre_return_byte = 0
          · simp [h4]
          · simp only [h4, if_false]
            exact hmain _ (by simp) (by simp)
    · simp only [h1]
      exact hmain _ (by simp) (by simp)

/-- C10 amended, at a run that reaches the supervisor and finishes: the hook is
executed once. -/
theorem ExecuteScript_on_exit_runs_once_witness :
    (ExecuteScript envReturns7).events.count (Event.Execute Ctx.hook) = 1 ∧
    (ExecuteScript envReturns7).events.count (Event.Execute Ctx.hook)
      = (if Event.AddContext Ctx.entry ∈ (ExecuteScript envReturns7).events ∧
            envReturns7.hook_ctx_ok = true then 1 else 0) :=
  ⟨by decide,
    ExecuteScript_on_exit_runs_once envReturns7 ⟨true, false, false, true⟩ EntryPoint.int_main
      rfl rfl rfl⟩

/-! ## Properties of the codec and of the save and load paths -/

/-- With the storing codec, a deflate loop that has more input than output space
never ends: each call fills the space that is left and consumes no more. -/
theorem deflateWhileInput_stored_stuck (fuel : Nat) :
    ∀ s : NVGTBytecodeStream storedZ, (∃ d, s.zstate = ZState.deflating d) →
      s.avail_out < s.next_in.length →
      NVGTBytecodeStream.deflateWhileInput storedZ fuel s = none := by
  induction fuel with
  | zero =>
    intro s _ h
    have hpos : s.next_in.length > 0 := by omega
    simp [NVGTBytecodeStream.deflateWhileInput, hpos]
  | succ n ih =>
    intro s hd h
    obtain ⟨d, hd⟩ := hd
    have hpos : s.next_in.length > 0 := by omega
    simp only [NVGTBytecodeStream.deflateWhileInput, hpos, if_true]
    apply ih
    · simp [NVGTBytecodeStream.deflate, hd]
    · simp only [NVGTBytecodeStream.deflate, hd, storedZ, List.length_take, List.length_drop]
      omega

/-- The state in which the deflate loop of a first Write starts has at most
65536 bytes of output space. -/
theorem Write_first_avail_out (Z : ZLib) (level : Int) (ptr : List Byte) :
    (NVGTBytecodeStream.Write_grow
      (NVGTBytecodeStream.Write_init Z level (NVGTBytecodeStream.new Z)) ptr).avail_out
      ≤ 65536 := by
  have h0 : (NVGTBytecodeStream.Write_init Z level (NVGTBytecodeStream.new Z)).alloc_size
      = 32768 := rfl
  have h1 : (NVGTBytecodeStream.Write_init Z level (NVGTBytecodeStream.new Z)).total_out
      = 0 := rfl
  have h2 : (NVGTBytecodeStream.Write_init Z level (NVGTBytecodeStream.new Z)).avail_out
      = 32768 := rfl
  generalize NVGTBytecodeStream.Write_init Z level (NVGTBytecodeStream.new Z) = s at h0 h1 h2
  unfold NVGTBytecodeStream.Write_grow
  split
  · simp only [h0, h1]
    decide
  · simp only [h2]
    decide

/-- The state in which the deflate loop of a first Write starts is initialised
for deflate and has ptr as its input. -/
theorem Write_first_zstate (Z : ZLib) (level : Int) (ptr : List Byte) :
    (NVGTBytecodeStream.Write_grow
      (NVGTBytecodeStream.Write_init Z level (NVGTBytecodeStream.new Z)) ptr).zstate
      = ZState.deflating (Z.deflateInit level) ∧
    (NVGTBytecodeStream.Write_grow
      (NVGTBytecodeStream.Write_init Z level (NVGTBytecodeStream.new Z)) ptr).next_in = ptr := by
  have h0 : (NVGTBytecodeStream.Write_init Z level (NVGTBytecodeStream.new Z)).zstate
      = ZState.deflating (Z.deflateInit level) := rfl
  generalize NVGTBytecodeStream.Write_init Z level (NVGTBytecodeStream.new Z) = s at h0
  unfold NVGTBytecodeStream.Write_grow
  split <;> exact ⟨h0, rfl⟩

/-- A first Write of more than 65536 bytes does not return with the storing codec. -/
theorem Write_stored_large_chunk (level : Int) (fuel : Nat) (ptr : List Byte)
    (hlen : 65536 < ptr.length) :
    NVGTBytecodeStream.Write storedZ level fuel (NVGTBytecodeStream.new storedZ) ptr = none := by
  have hz := Write_first_zstate storedZ level ptr
  have ha := Write_first_avail_out storedZ level ptr
  unfold NVGTBytecodeStream.Write
  generalize NVGTBytecodeStream.Write_grow
    (NVGTBytecodeStream.Write_init storedZ level (NVGTBytecodeStream.new storedZ)) ptr
    = x at hz ha
  rw [deflateWhileInput_stored_stuck fuel x ⟨_, hz.1⟩ (by rw [hz.2]; exact lt_of_le_of_lt ha hlen)]

/-- C1 fails on the code: with compression level 0 and a codec that stores the
bytes (its inflate inverts its deflate, and three bytes written in two chunks do
come back), the round trip of 327687 bytes handed to Write in one chunk never
completes, for any number of loop iterations: the buffer is doubled once, to
65536 bytes, deflate fills it, and the loop on line 162 keeps calling deflate
with avail_out = 0 and avail_in > 0. -/
theorem Write_large_chunk_never_returns :
    (∀ fuel : Nat,
      NVGTBytecodeStream.Write storedZ 0 fuel (NVGTBytecodeStream.new storedZ)
        (List.replicate 327687 (0 : Byte)) = none) ∧
    (∀ fuel : Nat, roundTrip storedZ 0 fuel [List.replicate 327687 (0 : Byte)] = none) ∧
    roundTrip storedZ 0 1 [[1], [2, 3]] = some [1, 2, 3] := by
  have h : ∀ fuel : Nat,
      NVGTBytecodeStream.Write storedZ 0 fuel (NVGTBytecodeStream.new storedZ)
        (List.replicate 327687 (0 : Byte)) = none :=
    fun fuel => Write_stored_large_chunk 0 fuel _ (by rw [List.length_replicate]; decide)
  refine ⟨h, ?_, by decide⟩
  intro fuel
  unfold roundTrip writeChunks
  rw [h fuel]

/-- C2 fails on the code where plain char is signed: saving the engine properties
1, 255 and 3 and the bytecode 1, 2, 3 gives the seven bytes 01 ff 01 03 01 02 03;
on loading, readFromDevice returns the char ff as -1, which is eof, so property 1
is set to 0 instead of 255, property 2 to 0 instead of 3, and the virtual machine
is handed a stream whose first three bytes are 01 03 01 instead of 01 02 03.  With
an unsigned plain char the same bytes load correctly. -/
theorem LoadCompiledScript_loses_property_255 :
    SaveCompiledScript storedZ 9 4 3 saveEnv255 = some (7, some [1, 255, 1, 3, 1, 2, 3]) ∧
    (LoadCompiledScript storedZ true 0 4 3 loadEnvPlain [1, 255, 1, 3, 1, 2, 3] 7).map
        (fun r => r.SetEngineProperty) = some [(0, 1), (1, 0), (2, 0)] ∧
    (LoadCompiledScript storedZ true 0 4 3 loadEnvPlain [1, 255, 1, 3, 1, 2, 3] 7).bind
        (fun r => r.handed.map (fun h => (NVGTBytecodeStream.Read storedZ h 3).delivered))
      = some [1, 3, 1] ∧
    (LoadCompiledScript storedZ false 0 4 3 loadEnvPlain [1, 255, 1, 3, 1, 2, 3] 7).map
        (fun r => r.SetEngineProperty) = some [(0, 1), (1, 255), (2, 3)] ∧
    (LoadCompiledScript storedZ false 0 4 3 loadEnvPlain [1, 255, 1, 3, 1, 2, 3] 7).bind
        (fun r => r.handed.map (fun h => (NVGTBytecodeStream.Read storedZ h 3).delivered))
      = some [1, 2, 3] := by
  refine ⟨by decide, by decide, by decide, by decide, by decide⟩

/-- Read returns the requested size converted to int, whatever inflate did. -/
theorem Read_ret (Z : ZLib) (s : NVGTBytecodeStream Z) (size : Nat) :
    (NVGTBytecodeStream.Read Z s size).ret = toInt32 size := by
  unfold NVGTBytecodeStream.Read
  cases s.zstate <;> simp only

/-- Write, when it returns, returns the requested size converted to int. -/
theorem Write_ret (Z : ZLib) (level : Int) (fuel : Nat) (s : NVGTBytecodeStream Z)
    (ptr : List Byte) :
    (NVGTBytecodeStream.Write Z level fuel s ptr).map Prod.snd
      = (NVGTBytecodeStream.Write Z level fuel s ptr).map (fun _ => toInt32 ptr.length) := by
  unfold NVGTBytecodeStream.Write
  split <;> simp [NVGTBytecodeStream.Write_end]

/-- C3 fails on the code: Read returns the requested size for every codec, stream
and size, and Write does whenever it returns; in particular, on a stream set from
an empty buffer inflate delivers no byte of the one requested and reports
Z_BUF_ERROR, and Read still returns 1; on a stream that was never initialised
inflate reports Z_STREAM_ERROR and Read still returns 1. -/
theorem Read_returns_size_despite_failure :
    (∀ (Z : ZLib) (s : NVGTBytecodeStream Z) (size : Nat),
      (NVGTBytecodeStream.Read Z s size).ret = toInt32 size) ∧
    (∀ (Z : ZLib) (level : Int) (fuel : Nat) (s : NVGTBytecodeStream Z) (ptr : List Byte),
      (NVGTBytecodeStream.Write Z level fuel s ptr).map Prod.snd
        = (NVGTBytecodeStream.Write Z level fuel s ptr).map (fun _ => toInt32 ptr.length)) ∧
    (NVGTBytecodeStream.Read storedZ
        (NVGTBytecodeStream.set storedZ (NVGTBytecodeStream.new storedZ) [] 0) 1).delivered = [] ∧
    (NVGTBytecodeStream.Read storedZ
        (NVGTBytecodeStream.set storedZ (NVGTBytecodeStream.new storedZ) [] 0) 1).inflate_rc
      = Z_BUF_ERROR ∧
    (NVGTBytecodeStream.Read storedZ
        (NVGTBytecodeStream.set storedZ (NVGTBytecodeStream.new storedZ) [] 0) 1).ret = 1 ∧
    (NVGTBytecodeStream.Read storedZ (NVGTBytecodeStream.new storedZ) 1).inflate_rc
      = Z_STREAM_ERROR ∧
    (NVGTBytecodeStream.Read storedZ (NVGTBytecodeStream.new storedZ) 1).ret = 1 := by
  refine ⟨Read_ret, Write_ret, by decide, by decide, by decide, by decide, by decide⟩

/-- C4 fails on the code: when module nvgt_game does not exist SaveCompiledScript
returns -1 and leaves code NULL; stored in the unsigned code_size this is
4294967295, the test code_size < 1 fails, and CompileExecutable goes on to append
the length field 4294967295 ^ NVGT_BYTECODE_NUMBER_XOR and a raw block of
4294967295 bytes read from NULL instead of taking the error return.  For a
result of 0 it does return -1 with only the embedded packs appended. -/
theorem CompileExecutable_appends_after_failed_save :
    ∀ (Z : ZLib) (level : Int) (fuel N xor stub_size : Nat) (windows : Bool),
      SaveCompiledScript Z level fuel N saveEnvNoModule = some (-1, none) ∧
      (CompileExecutable_append xor windows stub_size (-1, none)).2 =
        [Appended.embedded_packs,
         Appended.length_field ((4294967295 ^^^ xor) % 2 ^ 32),
         Appended.bytecode_block none 4294967295] ++
        (if windows then [] else [Appended.trailer (toInt32 (stub_size % 2 ^ 64))]) ∧
      ∀ code, CompileExecutable_append xor windows stub_size (0, code)
        = (-1, [Appended.embedded_packs]) := by
  intro Z level fuel N xor stub_size windows
  refine ⟨rfl, ?_, ?_⟩
  · have h : toUInt32 (-1) = 4294967295 := by decide
    simp [CompileExecutable_append, h]
  · intro code
    have h : toUInt32 0 = 0 := by decide
    simp [CompileExecutable_append, h]

/-! ## Properties of the data-section locator -/

/-- The section loop started at any offset ends at the greatest of that offset and
the section ends. -/
theorem foldl_sectionStep (sections : List IMAGE_SECTION_HEADER) :
    ∀ offset : Nat, sections.foldl sectionStep offset
      = (sections.map IMAGE_SECTION_HEADER.rawEnd).foldr max offset := by
  induction sections with
  | nil => intro offset; rfl
  | cons sh rest ih =>
    intro offset
    simp only [List.foldl_cons, List.map_cons, List.foldr_cons, ih]
    have hmono : ∀ (l : List Nat) (a b : Nat), max b (l.foldr max a) = l.foldr max (max b a) := by
      intro l
      induction l with
      | nil => intro a b; rfl
      | cons x xs ihx =>
        intro a b
        simp only [List.foldr_cons]
        rw [← ihx a b, ← max_assoc, max_comm b x, max_assoc]
    rw [hmono]
    congr 1
    unfold sectionStep
    split_ifs with h
    · exact (max_eq_left (le_of_lt h)).symm
    · exact (max_eq_right (not_lt.mp h)).symm

/-- C13: for every list of section headers the data-section start computed by the
section loop equals the maximum over all sections of PointerToRawData +
SizeOfRawData taken in unsigned 32-bit arithmetic, with 0 for an empty table; it
is at least the end of every section, and for a non-empty table it is the end of
one of the sections or 0. -/
theorem data_location_windows_is_max (sections : List IMAGE_SECTION_HEADER) :
    data_location_windows sections
        = (sections.map IMAGE_SECTION_HEADER.rawEnd).foldr max 0 ∧
      data_location_windows [] = 0 ∧
      (∀ sh ∈ sections, sh.rawEnd ≤ data_location_windows sections) ∧
      (data_location_windows sections = 0 ∨
        ∃ sh ∈ sections, data_location_windows sections = sh.rawEnd) ∧
      LoadCompiledExecutable_windows IMAGE_NT_SIGNATURE sections
        = some (data_location_windows sections) := by
  have hfold := foldl_sectionStep sections 0
  have hle : ∀ (l : List Nat) (a x : Nat), x ∈ l → x ≤ l.foldr max a := by
    intro l a
    induction l with
    | nil => intro x hx; cases hx
    | cons y ys ih =>
      intro x hx
      simp only [List.foldr_cons]
      rcases List.mem_cons.mp hx with h | h
      · subst h; exact le_max_left _ _
      · exact le_trans (ih x h) (le_max_right _ _)
  have hmem : ∀ (l : List Nat), l.foldr max 0 = 0 ∨ l.foldr max 0 ∈ l := by
    intro l
    induction l with
    | nil => left; rfl
    | cons y ys ih =>
      simp only [List.foldr_cons]
      rcases le_total y (ys.foldr max 0) with h | h
      · rw [max_eq_right h]
        rcases ih with h0 | hm
        · left; exact h0
        · right; exact List.mem_cons_of_mem _ hm
      · rw [max_eq_left h]
        right; exact List.mem_cons_self _ _
  refine ⟨hfold, rfl, ?_, ?_, ?_⟩
  · intro sh hsh
    unfold data_location_windows
    rw [hfold]
    exact hle _ 0 _ (List.mem_map_of_mem _ hsh)
  · unfold data_location_windows
    rw [hfold]
    rcases hmem (sections.map IMAGE_SECTION_HEADER.rawEnd) with h0 | hm
    · left; exact h0
    · right
      obtain ⟨sh, hsh, heq⟩ := List.mem_map.mp hm
      exact ⟨sh, hsh, heq.symm⟩
  · simp [LoadCompiledExecutable_windows]

/-- C13 at a table of three sections, the second of which wraps around 2^32: the
start is 0x3000, the end of the third section. -/
theorem data_location_windows_is_max_witness :
    data_location_windows
        [⟨0x400, 0x1000⟩, ⟨0xFFFFF000, 0x2000⟩, ⟨0x1400, 0x1C00⟩] = 0x3000 ∧
      (⟨0x1400, 0x1C00⟩ : IMAGE_SECTION_HEADER).rawEnd
        ≤ data_location_windows
            [⟨0x400, 0x1000⟩, ⟨0xFFFFF000, 0x2000⟩, ⟨0x1400, 0x1C00⟩] :=
  ⟨by decide,
    (data_location_windows_is_max
      [⟨0x400, 0x1000⟩, ⟨0xFFFFF000, 0x2000⟩, ⟨0x1400, 0x1C00⟩]).2.2.1
      ⟨0x1400, 0x1C00⟩ (by decide)⟩

/-! ## Properties of the context pool -/

/-- No call on the pool other than a creation installs a hook, and a creation
installs each hook once on the new context. -/
theorem Pool_run_hooks (ops : List PoolOp) :
    ∀ p : Pool,
      (∀ ctx, p.exception_callbacks.count ctx = if ctx < p.created then 1 else 0) →
      (∀ ctx, p.line_callbacks.count ctx = if ctx < p.created then 1 else 0) →
      (∀ ctx, (p.run ops).exception_callbacks.count ctx
          = if ctx < (p.run ops).created then 1 else 0) ∧
      (∀ ctx, (p.run ops).line_callbacks.count ctx
          = if ctx < (p.run ops).created then 1 else 0) := by
  induction ops with
  | nil => intro p h1 h2; exact ⟨h1, h2⟩
  | cons op rest ih =>
    intro p h1 h2
    have hstep : ∀ q : Pool,
        (∀ ctx, q.exception_callbacks.count ctx = if ctx < q.created then 1 else 0) →
        (∀ ctx, q.line_callbacks.count ctx = if ctx < q.created then 1 else 0) →
        (∀ ctx, q.create.2.exception_callbacks.count ctx
            = if ctx < q.create.2.created then 1 else 0) ∧
        (∀ ctx, q.create.2.line_callbacks.count ctx
            = if ctx < q.create.2.created then 1 else 0) := by
      intro q g1 g2
      constructor <;> intro ctx <;>
        simp only [Pool.create, List.count_append, List.count_cons, List.count_nil, g1, g2,
          beq_iff_eq] <;>
        split_ifs <;> omega
    cases op with
    | request =>
      show _ ∧ _
      have hrun : p.run (PoolOp.request :: rest) = (RequestContextCallback p).2.run rest := rfl
      rw [hrun]
      apply ih
      · unfold RequestContextCallback Pool.locked_request
        cases p.g_ctxPool.getLast? with
        | none => exact (hstep p h1 h2).1
        | some c => exact h1
      · unfold RequestContextCallback Pool.locked_request
        cases p.g_ctxPool.getLast? with
        | none => exact (hstep p h1 h2).2
        | some c => exact h2
    | release c =>
      have hrun : p.run (PoolOp.release c :: rest) = (ReturnContextCallback p c).run rest := rfl
      rw [hrun]
      exact ih _ h1 h2

/-- C15: RequestContextCallback on a non-empty free list returns its back, the
most recently released context still on the list, and removes it without
installing anything; right after a release it returns the context just released;
on an empty list it creates a new context and installs the exception hook and the
line hook on it; and after any sequence of requests and releases every context
created so far has had each hook installed exactly once, and no other context has
any. -/
theorem RequestContextCallback_lifo_and_hooks_once :
    (∀ (rest : List Nat) (c created : Nat) (e l u : List Nat),
      RequestContextCallback ⟨rest ++ [c], created, e, l, u⟩ = (c, ⟨rest, created, e, l, u⟩)) ∧
    (∀ (p : Pool) (c : Nat),
      (RequestContextCallback (ReturnContextCallback p c)).1 = c ∧
      (RequestContextCallback (ReturnContextCallback p c)).2.g_ctxPool = p.g_ctxPool) ∧
    (∀ (created : Nat) (e l u : List Nat),
      RequestContextCallback ⟨[], created, e, l, u⟩
        = (created, ⟨[], created + 1, e ++ [created], l ++ [created], u⟩)) ∧
    (∀ (ops : List PoolOp) (ctx : Nat),
      ((Pool.initial.run ops).exception_callbacks.count ctx
          = if ctx < (Pool.initial.run ops).created then 1 else 0) ∧
      ((Pool.initial.run ops).line_callbacks.count ctx
          = if ctx < (Pool.initial.run ops).created then 1 else 0)) := by
  refine ⟨?_, ?_, ?_, ?_⟩
  · intro rest c created e l u
    simp [RequestContextCallback, Pool.locked_request]
  · intro p c
    simp [RequestContextCallback, Pool.locked_request, ReturnContextCallback]
  · intro created e l u
    simp [RequestContextCallback, Pool.locked_request, Pool.create]
  · intro ops ctx
    have h := Pool_run_hooks ops Pool.initial (by intro c; simp [Pool.initial])
      (by intro c; simp [Pool.initial])
    exact ⟨h.1 ctx, h.2 ctx⟩

/-- Taking a held pair out of the list of held pairs and putting it in front
rearranges the list. -/
theorem held_perm_cons_erase (l : List (Nat × Nat)) (x : Nat × Nat) (h : x ∈ l) :
    l.Perm (x :: l.erase x) := by
  induction l with
  | nil => cases h
  | cons y ys ih =>
    rw [List.erase_cons]
    by_cases hyx : y = x
    · subst hyx
      simp
    · have hbeq : (y == x) = false := by simpa using hyx
      rw [hbeq]
      have hx : x ∈ ys := by
        rcases List.mem_cons.mp h with h1 | h1
        · exact absurd h1.symm hyx
        · exact h1
      exact ((ih hx).cons y).trans (List.Perm.swap x y _)

/-- Every atomic step keeps the free list and the held contexts a rearrangement of
the contexts created so far. -/
theorem Callers_step_accounted (s s1 : Callers) (a : PoolAction)
    (hinv : s.accounted) (hstep : s.step a = some s1) : s1.accounted := by
  unfold Callers.accounted at hinv ⊢
  cases a with
  | locked_request t =>
    simp only [Callers.step, Pool.locked_request] at hstep
    cases hlast : s.pool.g_ctxPool.getLast? with
    | none =>
      simp only [hlast, Option.some.injEq] at hstep
      subst hstep
      exact hinv
    | some c =>
      simp only [hlast, Option.some.injEq] at hstep
      subst hstep
      have hpool : s.pool.g_ctxPool = s.pool.g_ctxPool.dropLast ++ [c] :=
        (List.dropLast_append_getLast? c hlast).symm
      rw [hpool, List.append_assoc] at hinv
      simpa using hinv
  | create t =>
    simp only [Callers.step] at hstep
    split_ifs at hstep with hmem
    simp only [Option.some.injEq] at hstep
    subst hstep
    simp only [Pool.create, List.map_cons, List.range_succ]
    exact (List.perm_middle.trans (List.Perm.cons _ hinv)).trans
      (List.perm_append_singleton _ _).symm
  | release t c =>
    simp only [Callers.step] at hstep
    split_ifs at hstep with hmem
    simp only [Option.some.injEq] at hstep
    subst hstep
    simp only [ReturnContextCallback, List.append_assoc, List.singleton_append]
    refine List.Perm.trans ?_ hinv
    refine List.Perm.append_left _ ?_
    have h := (held_perm_cons_erase _ _ hmem).map Prod.snd
    simpa using h.symm

/-- Every interleaving keeps the free list and the held contexts a rearrangement
of the contexts created so far. -/
theorem Callers_run_accounted (acts : List PoolAction) :
    ∀ s s1 : Callers, s.accounted → s.run acts = some s1 → s1.accounted := by
  induction acts with
  | nil =>
    intro s s1 hinv hrun
    simp only [Callers.run, Option.some.injEq] at hrun
    subst hrun
    exact hinv
  | cons a rest ih =>
    intro s s1 hinv hrun
    simp only [Callers.run] at hrun
    cases hstep : s.step a with
    | none => simp [hstep] at hrun
    | some s2 =>
      simp only [hstep] at hrun
      exact ih s2 s1 (Callers_step_accounted s s2 a hinv hstep) hrun

/-- C16: after every interleaving of the atomic steps of RequestContextCallback
and ReturnContextCallback in which callers release only contexts they hold, no
context is held by two callers, the free list contains no context twice and no
context that is held, every context created so far is on the free list or held
(none is lost), and whatever step comes next, a context on the free list either
stays on it or is the one the locked block of a request hands to its caller. -/
theorem pool_interleaving_safe (acts : List PoolAction) (s : Callers)
    (hrun : Callers.initial.run acts = some s) :
    (∀ t1 t2 c, (t1, c) ∈ s.held → (t2, c) ∈ s.held → t1 = t2) ∧
    s.pool.g_ctxPool.Nodup ∧
    (∀ c ∈ s.pool.g_ctxPool, ∀ t, (t, c) ∉ s.held) ∧
    (∀ c, c < s.pool.created → c ∈ s.pool.g_ctxPool ∨ ∃ t, (t, c) ∈ s.held) ∧
    (∀ a s1, s.step a = some s1 → ∀ c ∈ s.pool.g_ctxPool,
      c ∈ s1.pool.g_ctxPool ∨ ∃ t, a = PoolAction.locked_request t ∧ (t, c) ∈ s1.held) := by
  have hinv : s.accounted :=
    Callers_run_accounted acts Callers.initial s (by simp [Callers.accounted, Callers.initial, Pool.initial]) hrun
  unfold Callers.accounted at hinv
  have hnodup : (s.pool.g_ctxPool ++ s.held.map Prod.snd).Nodup :=
    hinv.nodup_iff.mpr (List.nodup_range _)
  have hheld : (s.held.map Prod.snd).Nodup := (List.nodup_append.mp hnodup).2.1
  refine ⟨?_, (List.nodup_append.mp hnodup).1, ?_, ?_, ?_⟩
  · intro t1 t2 c h1 h2
    have hinj := List.inj_on_of_nodup_map hheld h1 h2 rfl
    exact congrArg Prod.fst hinj
  · intro c hc t ht
    exact (List.nodup_append.mp hnodup).2.2 hc (List.mem_map_of_mem Prod.snd ht) 
  · intro c hc
    have hmem : c ∈ s.pool.g_ctxPool ++ s.held.map Prod.snd :=
      hinv.mem_iff.mpr (List.mem_range.mpr hc)
    rcases List.mem_append.mp hmem with h | h
    · exact Or.inl h
    · obtain ⟨⟨t, c2⟩, hp, heq⟩ := List.mem_map.mp h
      simp only at heq
      subst heq
      exact Or.inr ⟨t, hp⟩
  · intro a s1 hstep c hc
    cases a with
    | locked_request t =>
      simp only [Callers.step, Pool.locked_request] at hstep
      cases hlast : s.pool.g_ctxPool.getLast? with
      | none =>
        simp only [hlast, Option.some.injEq] at hstep
        subst hstep
        exact Or.inl hc
      | some c2 =>
        simp only [hlast, Option.some.injEq] at hstep
        subst hstep
        have hpool : s.pool.g_ctxPool = s.pool.g_ctxPool.dropLast ++ [c2] :=
          (List.dropLast_append_getLast? c2 hlast).symm
        rw [hpool] at hc
        rcases List.mem_append.mp hc with h | h
        · exact Or.inl h
        · have hcc : c = c2 := by simpa using h
          subst hcc
          exact Or.inr ⟨t, rfl, List.mem_cons_self _ _⟩
    | create t =>
      simp only [Callers.step] at hstep
      split_ifs at hstep with hmem
      simp only [Option.some.injEq] at hstep
      subst hstep
      exact Or.inl hc
    | release t c2 =>
      simp only [Callers.step] at hstep
      split_ifs at hstep with hmem
      simp only [Option.some.injEq] at hstep
      subst hstep
      exact Or.inl (by simp [ReturnContextCallback, hc])

/-- C16 at an interleaving of two callers: both find the list empty and create,
caller 0 releases its context, caller 1 requests and gets it, so caller 1 holds
both contexts and the list is empty. -/
theorem pool_interleaving_safe_witness :
    Callers.initial.run
        [PoolAction.locked_request 0, PoolAction.locked_request 1, PoolAction.create 1,
         PoolAction.create 0, PoolAction.release 0 1, PoolAction.locked_request 1]
      = some ⟨⟨[], 2, [0, 1], [0, 1], [1]⟩, [(1, 1), (1, 0)], []⟩ ∧
    (∀ t1 t2 c, (t1, c) ∈ [(1, 1), (1, 0)] → (t2, c) ∈ [(1, 1), (1, 0)] → t1 = t2) ∧
    ([] : List Nat).Nodup :=
  ⟨by decide,
    (pool_interleaving_safe
      [PoolAction.locked_request 0, PoolAction.locked_request 1, PoolAction.create 1,
       PoolAction.create 0, PoolAction.release 0 1, PoolAction.locked_request 1]
      ⟨⟨[], 2, [0, 1], [0, 1], [1]⟩, [(1, 1), (1, 0)], []⟩ (by decide)).1,
    (pool_interleaving_safe
      [PoolAction.locked_request 0, PoolAction.locked_request 1, PoolAction.create 1,
       PoolAction.create 0, PoolAction.release 0 1, PoolAction.locked_request 1]
      ⟨⟨[], 2, [0, 1], [0, 1], [1]⟩, [(1, 1), (1, 0)], []⟩ (by decide)).2.1⟩

/-! ## Properties of PragmaCallback -/

/-- C20 fails on the code: from the default level 9 the pragma
bytecode_compression 10 makes PragmaCallback return -1, but line 749 has already
stored 10 in g_bcCompressionLevel, which is outside 0..9 and not the level it
was; the level stays 10 when the sequence of pragmas ends there.  A pragma with
4 is accepted and stores 4. -/
theorem PragmaCallback_rejected_level_is_stored :
    (PragmaCallback 9223372036854775807 (fun _ => true) PragmaGlobals.initial pragmaLevel10).1
        = -1 ∧
    (PragmaCallback 9223372036854775807 (fun _ => true) PragmaGlobals.initial
        pragmaLevel10).2.g_bcCompressionLevel = 10 ∧
    (PragmaCallback 2147483647 (fun _ => true) PragmaGlobals.initial
        pragmaLevel10).2.g_bcCompressionLevel = 10 ∧
    (PragmaCallback_all 9223372036854775807 (fun _ => true) PragmaGlobals.initial
        [pragmaLevel4, pragmaLevel10]).g_bcCompressionLevel = 10 ∧
    PragmaCallback 9223372036854775807 (fun _ => true) PragmaGlobals.initial pragmaLevel4
        = (0, { PragmaGlobals.initial with g_bcCompressionLevel := 4 }) := by
  refine ⟨by decide, by decide, by decide, by decide, by decide⟩

/-! ## Properties of the cursor and of the buffer growth -/

/-- Converting to int after each of two additions is converting once after both. -/
theorem toInt32_add (a b : Int) : toInt32 (toInt32 a + b) = toInt32 (a + b) := by
  unfold toInt32
  split_ifs <;> omega

/-- A value in the range of int is unchanged by the conversion. -/
theorem toInt32_of_range (a : Int) (h0 : 0 ≤ a) (h1 : a < 2147483648) : toInt32 a = a := by
  unfold toInt32
  split_ifs <;> omega

/-- Read adds the requested size to the cursor, in int arithmetic. -/
theorem Read_cursor (Z : ZLib) (s : NVGTBytecodeStream Z) (size : Nat) :
    (NVGTBytecodeStream.Read Z s size).stream.cursor = toInt32 (s.cursor + size) := by
  unfold NVGTBytecodeStream.Read
  cases s.zstate <;> simp only

/-- Converting to int twice is converting once. -/
theorem toInt32_idem (a : Int) : toInt32 (toInt32 a) = toInt32 a := by
  have h := toInt32_add a 0
  simpa using h

/-- After a sequence of Read calls, starting from a cursor that is an int value,
the cursor has grown by the sum of the sizes, in int arithmetic. -/
theorem readAll_cursor (Z : ZLib) (sizes : List Nat) :
    ∀ s : NVGTBytecodeStream Z, toInt32 s.cursor = s.cursor →
      (readAll Z s sizes).cursor = toInt32 (s.cursor + (sizes.sum : Nat)) := by
  induction sizes with
  | nil =>
    intro s hs
    simp only [readAll, List.foldl_nil, List.sum_nil, Nat.cast_zero, add_zero]
    exact hs.symm
  | cons n rest ih =>
    intro s _
    have hstep : readAll Z s (n :: rest)
        = readAll Z (NVGTBytecodeStream.Read Z s n).stream rest := rfl
    rw [hstep, ih _ (by rw [Read_cursor, toInt32_idem]), Read_cursor, List.sum_cons,
      toInt32_add]
    congr 1
    push_cast
    ring

/-- C17 as stated fails: after Read calls totalling 1 byte, reset_cursor() and one
Read call of 2147483648 bytes the int cursor is -2147483648, not 2147483648. -/
theorem cursor_wraps_after_reset :
    (readAll storedZ
        (readAll storedZ
          (NVGTBytecodeStream.set storedZ (NVGTBytecodeStream.new storedZ) [7] 1)
          [1]).reset_cursor
        [2147483648]).cursor = -2147483648 ∧
    (readAll storedZ
        (readAll storedZ
          (NVGTBytecodeStream.set storedZ (NVGTBytecodeStream.new storedZ) [7] 1)
          [1]).reset_cursor
        [2147483648]).cursor ≠ (([2147483648] : List Nat).sum : Int) := by
  refine ⟨by decide, by decide⟩

/-- C17 amended: for every codec and stream, after Read calls of any sizes
(totalling K), reset_cursor() and Read calls whose sizes total M < 2^31, the
cursor equals M, whatever K was. -/
theorem cursor_after_reset (Z : ZLib) (s : NVGTBytecodeStream Z) (ks ms : List Nat)
    (hM : ms.sum < 2147483648) :
    (readAll Z (readAll Z s ks).reset_cursor ms).cursor = (ms.sum : Int) := by
  have h0 : toInt32 ((readAll Z s ks).reset_cursor).cursor
      = ((readAll Z s ks).reset_cursor).cursor := by
    show toInt32 0 = 0
    decide
  rw [readAll_cursor Z ms _ h0]
  have hc : ((readAll Z s ks).reset_cursor).cursor = 0 := rfl
  rw [hc, zero_add]
  exact toInt32_of_range _ (by omega) (by omega)

/-- C17 amended, at a stream of five bytes: 2 bytes read, reset, then reads of 1
and 2 bytes leave the cursor at 3. -/
theorem cursor_after_reset_witness :
    ([1, 2] : List Nat).sum < 2147483648 ∧
    (readAll storedZ
        (readAll storedZ
          (NVGTBytecodeStream.set storedZ (NVGTBytecodeStream.new storedZ) [1, 2, 3, 4, 5] 5)
          [2]).reset_cursor
        [1, 2]).cursor = 3 :=
  ⟨by decide,
    cursor_after_reset storedZ
      (NVGTBytecodeStream.set storedZ (NVGTBytecodeStream.new storedZ) [1, 2, 3, 4, 5] 5)
      [2] [1, 2] (by decide)⟩

/-- A deflate call leaves alloc_size and written_size as they are. -/
theorem deflate_sizes (Z : ZLib) (s : NVGTBytecodeStream Z) (flush : Int) :
    (NVGTBytecodeStream.deflate Z s flush).1.alloc_size = s.alloc_size ∧
    (NVGTBytecodeStream.deflate Z s flush).1.written_size = s.written_size := by
  unfold NVGTBytecodeStream.deflate
  cases s.zstate <;> exact ⟨rfl, rfl⟩

/-- The deflate loop ends at once when there is no input. -/
theorem deflateWhileInput_no_input (Z : ZLib) (fuel : Nat) (s : NVGTBytecodeStream Z)
    (h : s.next_in = []) : NVGTBytecodeStream.deflateWhileInput Z fuel s = some s := by
  cases fuel <;> simp [NVGTBytecodeStream.deflateWhileInput, h]

/-- With the codec that holds its input back, the deflate loop ends after one
call and leaves alloc_size and written_size as they are. -/
theorem deflateWhileInput_buffering (fuel : Nat) (s : NVGTBytecodeStream bufferingZ)
    (hd : ∃ d, s.zstate = ZState.deflating d) :
    ∃ s4, NVGTBytecodeStream.deflateWhileInput bufferingZ (fuel + 1) s = some s4 ∧
      s4.alloc_size = s.alloc_size ∧ s4.written_size = s.written_size := by
  obtain ⟨d, hd⟩ := hd
  by_cases hpos : s.next_in.length > 0
  · refine ⟨(NVGTBytecodeStream.deflate bufferingZ s Z_NO_FLUSH).1, ?_,
      (deflate_sizes bufferingZ s Z_NO_FLUSH).1, (deflate_sizes bufferingZ s Z_NO_FLUSH).2⟩
    simp only [NVGTBytecodeStream.deflateWhileInput, hpos, if_true]
    apply deflateWhileInput_no_input
    simp [NVGTBytecodeStream.deflate, hd, bufferingZ, Z_NO_FLUSH, Z_FINISH]
  · refine ⟨s, ?_, rfl, rfl⟩
    simp [NVGTBytecodeStream.deflateWhileInput, hpos]

/-- The first Write of more than 32768 bytes doubles the buffer once, to 65536,
whatever the size written. -/
theorem Write_first_sizes (Z : ZLib) (level : Int) (ptr : List Byte)
    (h1 : 32768 < ptr.length) (h2 : ptr.length < 2147483648) :
    (NVGTBytecodeStream.Write_grow
      (NVGTBytecodeStream.Write_init Z level (NVGTBytecodeStream.new Z)) ptr).alloc_size
      = 65536 ∧
    (NVGTBytecodeStream.Write_grow
      (NVGTBytecodeStream.Write_init Z level (NVGTBytecodeStream.new Z)) ptr).written_size
      = ptr.length := by
  have h0 : (NVGTBytecodeStream.Write_init Z level (NVGTBytecodeStream.new Z)).alloc_size
      = 32768 := rfl
  have hw : (NVGTBytecodeStream.Write_init Z level (NVGTBytecodeStream.new Z)).written_size
      = 0 := rfl
  generalize NVGTBytecodeStream.Write_init Z level (NVGTBytecodeStream.new Z) = s at h0 hw
  have hx : toInt32 (s.written_size + (ptr.length : Int)) = (ptr.length : Int) := by
    rw [hw, zero_add]
    exact toInt32_of_range _ (by omega) (by omega)
  have hd : toInt32 ((32768 : Int) * 2) = 65536 := by decide
  unfold NVGTBytecodeStream.Write_grow
  rw [hx, h0]
  have hgt : ((ptr.length : Int) > 32768) := by omega
  rw [if_pos hgt]
  exact ⟨hd, rfl⟩

/-- Write returns what lines 163-164 make of the state in which the deflate loop
ended. -/
theorem Write_of_loop (Z : ZLib) (level : Int) (fuel : Nat) (s s4 : NVGTBytecodeStream Z)
    (ptr : List Byte)
    (h : NVGTBytecodeStream.deflateWhileInput Z fuel
      (NVGTBytecodeStream.Write_grow (NVGTBytecodeStream.Write_init Z level s) ptr) = some s4) :
    NVGTBytecodeStream.Write Z level fuel s ptr
      = some (NVGTBytecodeStream.Write_end s4 ptr.length) := by
  unfold NVGTBytecodeStream.Write
  rw [h]

/-- Lines 163-164 leave alloc_size and written_size as they are. -/
theorem Write_end_sizes {Z : ZLib} (s : NVGTBytecodeStream Z) (size : Nat) :
    (NVGTBytecodeStream.Write_end s size).1.alloc_size = s.alloc_size ∧
    (NVGTBytecodeStream.Write_end s size).1.written_size = s.written_size :=
  ⟨rfl, rfl⟩

/-- With the codec that holds its input back, the first Write of more than 32768
bytes returns with alloc_size = 65536 and written_size the size written. -/
theorem Write_buffering_first (level : Int) (fuel : Nat) (ptr : List Byte)
    (h1 : 32768 < ptr.length) (h2 : ptr.length < 2147483648) :
    (NVGTBytecodeStream.Write bufferingZ level (fuel + 1) (NVGTBytecodeStream.new bufferingZ)
        ptr).map (fun r => (r.1.alloc_size, r.1.written_size))
      = some (65536, (ptr.length : Int)) := by
  have hz := Write_first_zstate bufferingZ level ptr
  have hs := Write_first_sizes bufferingZ level ptr h1 h2
  obtain ⟨s4, h4, ha, hw⟩ := deflateWhileInput_buffering fuel _ ⟨_, hz.1⟩
  rw [Write_of_loop bufferingZ level (fuel + 1) _ s4 ptr h4, Option.map_some']
  rw [(Write_end_sizes s4 ptr.length).1, (Write_end_sizes s4 ptr.length).2, ha, hw, hs.1, hs.2]

/-- C19 fails on the code: a first Write of 65537 bytes whose compressed form the
compressor holds back returns with alloc_size = 65536 below the running total
written_size = 65537, because the buffer is doubled once per call; a first Write
of 327687 bytes returns with alloc_size = 65536 and written_size = 327687. -/
theorem Write_leaves_buffer_below_total :
    (NVGTBytecodeStream.Write bufferingZ 9 1 (NVGTBytecodeStream.new bufferingZ)
        (List.replicate 65537 (0 : Byte))).map (fun r => (r.1.alloc_size, r.1.written_size))
      = some (65536, 65537) ∧
    (NVGTBytecodeStream.Write bufferingZ 9 1 (NVGTBytecodeStream.new bufferingZ)
        (List.replicate 327687 (0 : Byte))).map (fun r => (r.1.alloc_size, r.1.written_size))
      = some (65536, 327687) := by
  constructor
  · have h := Write_buffering_first 9 0 (List.replicate 65537 (0 : Byte))
      (by rw [List.length_replicate]; decide) (by rw [List.length_replicate]; decide)
    rw [List.length_replicate] at h
    exact h
  · have h := Write_buffering_first 9 0 (List.replicate 327687 (0 : Byte))
      (by rw [List.length_replicate]; decide) (by rw [List.length_replicate]; decide)
    rw [List.length_replicate] at h
    exact h

/-! ## Properties of the executable file -/

/-- Four bytes written least significant first read back as the value modulo 2^32. -/
theorem fromLE32_bytesLE32 (v : Nat) : fromLE32 (bytesLE32 v) = v % 2 ^ 32 := by
  simp only [fromLE32, bytesLE32, byte]
  omega

/-- The int written as the trailer, read back as UInt32, is the value modulo 2^32. -/
theorem toUInt32_toInt32 (x : Int) : toUInt32 (toInt32 x) = (x % 4294967296).toNat := by
  unfold toUInt32 toInt32
  split_ifs <;> congr 1 <;> omega

/-- The four bytes before the end of a file that ends in a 32-bit value are that
value. -/
theorem data_location_trailer_append (pre : List Byte) (v : Nat) :
    data_location_trailer (pre ++ bytesLE32 v) = some (v % 2 ^ 32) := by
  have hlen : (bytesLE32 v).length = 4 := rfl
  have hl : (pre ++ bytesLE32 v).length = pre.length + 4 := by
    rw [List.length_append, hlen]
  unfold data_location_trailer
  rw [hl, if_neg (by omega), Nat.add_sub_cancel, List.drop_left, fromLE32_bytesLE32]

/-- The file CompileExecutable leaves when the bytecode size passes the test on
line 551: the stub, the embedded packs, the obfuscated size, the block, and off
windows the trailer. -/
theorem CompileExecutable_file_ok (X : Nat) (windows : Bool) (stub packs : List Byte)
    (n : Int) (code : Option (List Byte)) (hn : 1 ≤ toUInt32 n) :
    (CompileExecutable_file X windows stub packs (n, code)).2
      = stub ++ (packs ++ (write7BitEncoded32 ((toUInt32 n ^^^ X) % 2 ^ 32) ++
          ((code.getD []).take (toUInt32 n) ++
            (if windows then []
              else bytesLE32 (toUInt32 (toInt32 ((stub.length : Int) % 2 ^ 64))))))) := by
  have h0 : toUInt32 n ≠ 0 := by omega
  cases windows <;>
    simp [CompileExecutable_file, CompileExecutable_append, h0, Appended.bytes]

/-- Off windows the UInt32 read 4 bytes before the end of the file CompileExecutable
wrote is the stub size modulo 2^32. -/
theorem data_location_trailer_file (X : Nat) (stub packs : List Byte) (n : Int)
    (code : Option (List Byte)) (hn : 1 ≤ toUInt32 n) :
    data_location_trailer (CompileExecutable_file X false stub packs (n, code)).2
      = some (stub.length % 2 ^ 32) := by
  rw [CompileExecutable_file_ok X false stub packs n code hn]
  simp only [Bool.false_eq_true, if_false]
  rw [← List.append_assoc, ← List.append_assoc, ← List.append_assoc,
    data_location_trailer_append, toUInt32_toInt32]
  congr 1
  omega

/-- C12 as stated fails: for a stub of 4294967296 bytes the value read 4 bytes
before the end of the file is 0, not the offset 4294967296 at which the data
section was appended. -/
theorem trailer_truncates_stub_size :
    data_location_trailer
        (CompileExecutable_file 0 false (List.replicate 4294967296 (0 : Byte)) []
          (1, some [9])).2 = some 0 ∧
    (List.replicate 4294967296 (0 : Byte)).length = 4294967296 := by
  constructor
  · rw [data_location_trailer_file 0 _ [] 1 (some [9]) (by decide), List.length_replicate]
    decide
  · exact List.length_replicate _ _

/-- C12 amended: off windows, for every stub smaller than 2^32 bytes and every
build that passes the bytecode test, the UInt32 read 4 bytes before the end of the
file equals the stub size, and the bytes of the file from that offset on are the
ones CompileExecutable appended. -/
theorem trailer_round_trip (X : Nat) (stub packs : List Byte) (n : Int)
    (code : Option (List Byte)) (hn : 1 ≤ toUInt32 n) (hstub : stub.length < 2 ^ 32) :
    data_location_trailer (CompileExecutable_file X false stub packs (n, code)).2
      = some stub.length ∧
    (CompileExecutable_file X false stub packs (n, code)).2.drop stub.length
      = (CompileExecutable_append X false stub.length (n, code)).2.flatMap
          (Appended.bytes packs) := by
  constructor
  · rw [data_location_trailer_file X stub packs n code hn, Nat.mod_eq_of_lt hstub]
  · unfold CompileExecutable_file
    exact List.drop_left _ _

/-- C12 amended, at a stub of three bytes: the trailer holds 3. -/
theorem trailer_round_trip_witness :
    (1 : Nat) ≤ toUInt32 2 ∧ ([127, 69, 76] : List Byte).length < 2 ^ 32 ∧
    (CompileExecutable_file 90 false [127, 69, 76] [170] (2, some [7, 8])).2
      = [127, 69, 76, 170, 88, 7, 8, 3, 0, 0, 0] ∧
    data_location_trailer (CompileExecutable_file 90 false [127, 69, 76] [170] (2, some [7, 8])).2
      = some ([127, 69, 76] : List Byte).length :=
  ⟨by decide, by decide, by decide,
    (trailer_round_trip 90 [127, 69, 76] [170] 2 (some [7, 8]) (by decide) (by decide)).1⟩

/-- Reading what the 7-bit writer wrote for v adds v, shifted by the current shift,
to the value read so far, and stops right behind the written bytes. -/
theorem read7BitEncoded32Loop_write (fuel : Nat) :
    ∀ (v acc sh : Nat) (rest : List Byte), v < 128 ^ (fuel + 1) → acc + v * 2 ^ sh < 2 ^ 32 →
      read7BitEncoded32Loop (write7BitEncodedLoop (fuel + 1) v ++ rest) acc sh
        = (acc + v * 2 ^ sh, rest) := by
  induction fuel with
  | zero =>
    intro v acc sh rest hv hacc
    have hv128 : v < 128 := by simpa using hv
    have hdiv : v / 128 = 0 := Nat.div_eq_of_lt hv128
    have hmod : v % 128 = v := Nat.mod_eq_of_lt hv128
    have hle : v * 2 ^ sh < 2 ^ 32 := by omega
    simp only [write7BitEncodedLoop, hdiv, ne_eq, not_true_eq_false, if_false, hmod,
      List.singleton_append, read7BitEncoded32Loop, byte]
    have h256 : v % 256 = v := Nat.mod_eq_of_lt (by omega)
    simp only [h256, hdiv, hmod, not_true_eq_false, if_false, Nat.shiftLeft_eq,
      Nat.mod_eq_of_lt hle, Nat.mod_eq_of_lt hacc]
  | succ k ih =>
    intro v acc sh rest hv hacc
    by_cases hdiv : v / 128 = 0
    · have hv128 : v < 128 := by omega
      have hmod : v % 128 = v := Nat.mod_eq_of_lt hv128
      have hle : v * 2 ^ sh < 2 ^ 32 := by omega
      have h256 : v % 256 = v := Nat.mod_eq_of_lt (by omega)
      simp only [write7BitEncodedLoop, hdiv, ne_eq, not_true_eq_false, if_false, hmod,
        List.singleton_append, read7BitEncoded32Loop, byte]
      simp only [h256, hdiv, hmod, not_true_eq_false, if_false, Nat.shiftLeft_eq,
        Nat.mod_eq_of_lt hle, Nat.mod_eq_of_lt hacc]
    · have hc256 : (v % 128 + 128) % 256 = v % 128 + 128 := Nat.mod_eq_of_lt (by omega)
      have hc128 : (v % 128 + 128) / 128 = 1 := by omega
      have hcm : (v % 128 + 128) % 128 = v % 128 := by omega
      have hsplit : v * 2 ^ sh = v % 128 * 2 ^ sh + v / 128 * 2 ^ (sh + 7) := by
        have h7 : 2 ^ (sh + 7) = 2 ^ sh * 128 := by rw [pow_add]; norm_num
        have h := Nat.div_add_mod v 128
        calc v * 2 ^ sh = (128 * (v / 128) + v % 128) * 2 ^ sh := by rw [h]
          _ = v % 128 * 2 ^ sh + v / 128 * 2 ^ (sh + 7) := by rw [h7]; ring
      have hq : v / 128 < 128 ^ (k + 1) := by
        apply Nat.div_lt_of_lt_mul
        rw [pow_succ] at hv
        rw [Nat.mul_comm]
        exact hv
      have hlow : v % 128 * 2 ^ sh < 2 ^ 32 := by omega
      have hacc1 : acc + v % 128 * 2 ^ sh < 2 ^ 32 := by omega
      have hstep : write7BitEncodedLoop (k + 1 + 1) v
          = byte (v % 128 + 128) :: write7BitEncodedLoop (k + 1) (v / 128) := by
        rw [write7BitEncodedLoop]
        simp only [ne_eq, hdiv, not_false_eq_true, if_true]
      rw [hstep, List.cons_append, read7BitEncoded32Loop]
      simp only [byte, hc256, hc128, hcm, ne_eq, one_ne_zero, not_false_eq_true, if_true,
        Nat.shiftLeft_eq, Nat.mod_eq_of_lt hlow, Nat.mod_eq_of_lt hacc1]
      rw [ih (v / 128) _ (sh + 7) rest hq (by omega)]
      congr 1
      omega

/-- The UInt32 reader reads back every 32-bit value the UInt32 writer wrote and
stops right behind it. -/
theorem read7BitEncoded32_write (v : Nat) (rest : List Byte) (hv : v < 2 ^ 32) :
    read7BitEncoded32 (write7BitEncoded32 v ++ rest) = (v, rest) := by
  unfold read7BitEncoded32 write7BitEncoded32
  rw [Nat.mod_eq_of_lt hv,
    read7BitEncoded32Loop_write 4 v 0 0 rest (by omega) (by omega)]
  congr 1
  omega

/-- The reader of lines 626-629 finds the block behind the length field written
for it, whatever follows the block. -/
theorem LoadCompiledExecutable_code_write (X n : Nat) (block tail : List Byte)
    (hn : n < 2 ^ 32) (hX : X < 2 ^ 32) (hb : block.length = n) :
    LoadCompiledExecutable_code X (write7BitEncoded32 ((n ^^^ X) % 2 ^ 32) ++ (block ++ tail))
      = (block, n) := by
  have hx : n ^^^ X < 2 ^ 32 := Nat.xor_lt_two_pow hn hX
  have hxx : (n ^^^ X) ^^^ X = n := by
    rw [Nat.xor_assoc, Nat.xor_self, Nat.xor_zero]
  unfold LoadCompiledExecutable_code
  rw [read7BitEncoded32_write ((n ^^^ X) % 2 ^ 32) (block ++ tail) (Nat.mod_lt _ (by decide))]
  simp only [Nat.mod_eq_of_lt hx, hxx, Nat.mod_eq_of_lt hn]
  rw [← hb, List.take_left]

/-- C18: for every 32-bit bytecode length n >= 1 and 32-bit constant
NVGT_BYTECODE_NUMBER_XOR, the length field CompileExecutable writes is the 7-bit
encoding of n XOR the constant, and LoadCompiledExecutable, reading that field and
XOR-ing with the same constant, obtains n again and then reads exactly the n
bytes of the bytecode block, whatever follows the block. -/
theorem length_field_round_trip (X n : Nat) (block tail : List Byte)
    (hn1 : 1 ≤ n) (hn : n < 2 ^ 32) (hX : X < 2 ^ 32) (hb : block.length = n) :
    (∀ (windows : Bool) (stub_size : Nat),
      (CompileExecutable_append X windows stub_size (toInt32 n, some block)).2.map
          (Appended.bytes []) =
        [[], write7BitEncoded32 ((n ^^^ X) % 2 ^ 32), block] ++
          (if windows then [] else [bytesLE32 (toUInt32 (toInt32 (stub_size % 2 ^ 64 : Nat)))])) ∧
    (read7BitEncoded32 (write7BitEncoded32 ((n ^^^ X) % 2 ^ 32) ++ (block ++ tail))).1 ^^^ X
      = n ∧
    LoadCompiledExecutable_code X (write7BitEncoded32 ((n ^^^ X) % 2 ^ 32) ++ (block ++ tail))
      = (block, n) := by
  have hx : n ^^^ X < 2 ^ 32 := Nat.xor_lt_two_pow hn hX
  have hxx : (n ^^^ X) ^^^ X = n := by
    rw [Nat.xor_assoc, Nat.xor_self, Nat.xor_zero]
  have hu : toUInt32 (toInt32 (n : Int)) = n := by
    rw [toUInt32_toInt32]
    omega
  have hread := read7BitEncoded32_write ((n ^^^ X) % 2 ^ 32) (block ++ tail)
    (Nat.mod_lt _ (by decide))
  refine ⟨?_, ?_, ?_⟩
  · intro windows stub_size
    have h0 : n ≠ 0 := by omega
    cases windows <;>
      simp [CompileExecutable_append, hu, h0, Appended.bytes, hb]
  · rw [hread, Nat.mod_eq_of_lt hx, hxx]
  · unfold LoadCompiledExecutable_code
    rw [hread]
    simp only [Nat.mod_eq_of_lt hx, hxx, Nat.mod_eq_of_lt hn]
    rw [← hb, List.take_left]

/-- C18 at the length 300 with the constant 0xDEADBEEF: the field is read back
as 300 and the block of 300 bytes is read whole. -/
theorem length_field_round_trip_witness :
    (1 : Nat) ≤ 300 ∧ (300 : Nat) < 2 ^ 32 ∧ (3735928559 : Nat) < 2 ^ 32 ∧
    LoadCompiledExecutable_code 3735928559
        (write7BitEncoded32 ((300 ^^^ 3735928559) % 2 ^ 32) ++
          (List.replicate 300 (5 : Byte) ++ [1, 0, 0, 0]))
      = (List.replicate 300 (5 : Byte), 300) :=
  ⟨by decide, by decide, by decide,
    (length_field_round_trip 3735928559 300 (List.replicate 300 5) [1, 0, 0, 0]
      (by decide) (by decide) (by decide) (List.length_replicate _ _)).2.2⟩

/-- Writing M Z over the first two bytes of an image that starts with M Z changes
nothing. -/
theorem writeAt_signature (img : List Byte) (h : img.take 2 = [77, 90]) :
    writeAt img 0 [77, 90] = img := by
  unfold writeAt
  simp only [List.take_zero, List.nil_append, List.length_cons, List.length_nil, Nat.zero_add]
  conv_rhs => rw [← List.take_append_drop 2 img, h]

/-- A write that ends inside the image replaces the bytes at its position. -/
theorem writeAt_inside (img : List Byte) (pos : Nat) (bs : List Byte)
    (h : pos + bs.length ≤ img.length) :
    writeAt img pos bs = img.take pos ++ bs ++ img.drop (pos + bs.length) := by
  unfold writeAt
  have h0 : pos - img.length = 0 := by omega
  rw [h0, List.replicate_zero, List.append_nil]

/-- The facts about the large stub image, for an image known only to be equal to
it. -/
theorem header_step_large_pointer (x : List Byte) (hx : x = stubHuge) :
    x.take 2 = [77, 90] ∧
    readLE32At x 60 = some 2147483648 ∧
    2147483648 + 94 ≤ x.length ∧
    (CompileExecutable_header true true x).2 = false ∧
    (CompileExecutable_header true true x).1[2147483648 + 92]? = some 0 ∧
    (CompileExecutable_header true true x).1[2147483648 + 93]? = some 0 := by
  have h64 : headerHuge.length = 64 := rfl
  have hlen : x.length = 2147483742 := by
    rw [hx]
    unfold stubHuge
    rw [List.length_append, List.length_replicate, h64]
  have htake : x.take 2 = [77, 90] := by
    rw [hx]
    unfold stubHuge
    rw [List.take_append_of_le_length (by decide)]
    rfl
  have hread : readLE32At x 60 = some 2147483648 := by
    unfold readLE32At
    rw [hlen, if_pos (by decide), hx]
    unfold stubHuge
    rw [List.drop_append_of_le_length (by decide), List.take_append_of_le_length (by decide)]
    rfl
  have hstep : CompileExecutable_header true true x = (x, false) := by
    unfold CompileExecutable_header
    rw [writeAt_signature x htake, hread]
    simp only [Bool.not_true, Bool.false_eq_true, if_false]
    rw [if_pos (by decide)]
  have hget : ∀ i, 64 ≤ i → i < 2147483742 → x[i]? = some 0 := by
    intro i h1 h2
    rw [hx]
    unfold stubHuge
    rw [List.getElem?_append_right (by omega), h64,
      List.getElem?_replicate_of_lt (by omega)]
  refine ⟨htake, hread, by rw [hlen], by rw [hstep], ?_, ?_⟩
  · rw [hstep]
    exact hget _ (by decide) (by decide)
  · rw [hstep]
    exact hget _ (by decide) (by decide)

/-- C14 as stated fails: a stub image of 2^31 + 94 bytes starts with M Z, holds
the header-location pointer L = 2^31 at offset 60 and is L + 94 bytes long, yet
with console mode requested the header step leaves the stream failed and the two
bytes at offsets L + 92 and L + 93 hold 0, not the value 3: the pointer is read
as the int -2^31 and the seek to -2^31 + 92 fails. -/
theorem header_step_fails_for_large_pointer :
    stubHuge.take 2 = [77, 90] ∧
    readLE32At stubHuge 60 = some 2147483648 ∧
    2147483648 + 94 ≤ stubHuge.length ∧
    (CompileExecutable_header true true stubHuge).2 = false ∧
    (CompileExecutable_header true true stubHuge).1[2147483648 + 92]? = some 0 ∧
    (CompileExecutable_header true true stubHuge).1[2147483648 + 93]? = some 0 :=
  header_step_large_pointer stubHuge rfl

/-- Replacing two bytes inside an image keeps its length, puts the two bytes at
their offsets and leaves every other byte as it was. -/
theorem patch_two_bytes (img : List Byte) (p : Nat) (a b : Byte) (h : p + 2 ≤ img.length) :
    (img.take p ++ [a, b] ++ img.drop (p + 2)).length = img.length ∧
    (∀ i, i ≠ p → i ≠ p + 1 → (img.take p ++ [a, b] ++ img.drop (p + 2))[i]? = img[i]?) ∧
    (img.take p ++ [a, b] ++ img.drop (p + 2))[p]? = some a ∧
    (img.take p ++ [a, b] ++ img.drop (p + 2))[p + 1]? = some b := by
  have hlt : (img.take p).length = p := by
    rw [List.length_take]; omega
  refine ⟨?_, ?_, ?_, ?_⟩
  · simp only [List.length_append, hlt, List.length_drop, List.length_cons, List.length_nil]
    omega
  · intro i h1 h2
    rw [List.append_assoc]
    by_cases hi : i < p
    · rw [List.getElem?_append_left (by omega), List.getElem?_take_of_lt hi]
    · rw [List.getElem?_append_right (by omega), hlt,
        List.getElem?_append_right (by simp; omega), List.getElem?_drop]
      congr 1
      simp only [List.length_cons, List.length_nil]
      omega
  · rw [List.append_assoc, List.getElem?_append_right (by omega), hlt, Nat.sub_self]
    rfl
  · rw [List.append_assoc, List.getElem?_append_right (by omega), hlt]
    have : p + 1 - p = 1 := by omega
    rw [this]
    simp

/-- C14 amended: for every stub image that starts with M Z, whose header-location
pointer at offset 60 is L with L + 92 < 2^31 and whose length is at least L + 94,
the header step with console mode requested leaves the stream good and produces
an image of the same length that differs from the input at most in the two bytes
at offsets L + 92 and L + 93, which hold 3 and 0, the 16-bit value 3; without
console mode the image is unchanged. -/
theorem header_step_scope (img : List Byte) (L : Nat) (hmz : img.take 2 = [77, 90])
    (hL : readLE32At img 60 = some L) (hlen : L + 94 ≤ img.length)
    (hbound : L + 92 < 2147483648) :
    (CompileExecutable_header true true img).2 = true ∧
    (CompileExecutable_header true true img).1.length = img.length ∧
    (∀ i, i ≠ L + 92 → i ≠ L + 93 →
      (CompileExecutable_header true true img).1[i]? = img[i]?) ∧
    (CompileExecutable_header true true img).1[L + 92]? = some 3 ∧
    (CompileExecutable_header true true img).1[L + 93]? = some 0 ∧
    CompileExecutable_header true false img = (img, true) := by
  have ht1 : toInt32 (L : Int) = (L : Int) := toInt32_of_range _ (by omega) (by omega)
  have ht : toInt32 (toInt32 (L : Int) + 92) = ((L + 92 : Nat) : Int) := by
    rw [ht1, toInt32_of_range _ (by omega) (by omega)]
    push_cast
    rfl
  have hb : bytesLE16 3 = [3, 0] := by decide
  have hstep : CompileExecutable_header true true img
      = (img.take (L + 92) ++ [3, 0] ++ img.drop (L + 92 + 2), true) := by
    unfold CompileExecutable_header
    rw [writeAt_signature img hmz, hL]
    simp only [Bool.not_true, Bool.false_eq_true, if_false]
    rw [ht, if_neg (by omega), Int.toNat_ofNat, hb, writeAt_inside img (L + 92) [3, 0] (by simpa using hlen)]
    rfl
  have hp := patch_two_bytes img (L + 92) 3 0 (by omega)
  refine ⟨by rw [hstep], by rw [hstep]; exact hp.1, ?_, by rw [hstep]; exact hp.2.2.1,
    by rw [hstep]; exact hp.2.2.2, ?_⟩
  · intro i h1 h2
    rw [hstep]
    exact hp.2.1 i h1 h2
  · unfold CompileExecutable_header
    rw [writeAt_signature img hmz]
    rfl

set_option maxRecDepth 16384 in
/-- C14 amended, at a stub image of 200 bytes with the pointer 100 at offset 60:
only the subsystem bytes at offsets 192 and 193 change, from 2 0 to 3 0. -/
theorem header_step_scope_witness :
    stubSmall.take 2 = [77, 90] ∧ readLE32At stubSmall 60 = some 100 ∧
    100 + 94 ≤ stubSmall.length ∧ stubSmall[192]? = some 2 ∧
    (CompileExecutable_header true true stubSmall).1[100 + 92]? = some 3 ∧
    (CompileExecutable_header true true stubSmall).1.length = stubSmall.length :=
  ⟨by decide, by decide, by decide, by decide,
    (header_step_scope stubSmall 100 (by decide) (by decide) (by decide) (by decide)).2.2.2.1,
    (header_step_scope stubSmall 100 (by decide) (by decide) (by decide) (by decide)).2.1⟩

/-! ## Properties of the data-section layout -/

/-- A sequence of Write calls in two parts is the first part followed by the
second. -/
theorem writeChunks_append (Z : ZLib) (level : Int) (fuel : Nat) (a b : List (List Byte)) :
    ∀ s : NVGTBytecodeStream Z,
      writeChunks Z level fuel s (a ++ b)
        = (writeChunks Z level fuel s a).bind (fun s1 => writeChunks Z level fuel s1 b) := by
  induction a with
  | nil => intro s; rfl
  | cons c cs ih =>
    intro s
    simp only [List.cons_append, writeChunks]
    cases hW : NVGTBytecodeStream.Write Z level fuel s c with
    | none => rfl
    | some r => exact ih r.1

/-- Writing bytes through the stream adapter is one Write call of size 1 per byte. -/
theorem ostream_write_eq_writeChunks (Z : ZLib) (level : Int) (fuel : Nat) (bs : List Byte) :
    ∀ s : NVGTBytecodeStream Z,
      ostream_write Z level fuel s bs
        = writeChunks Z level fuel s (bs.map (fun b => [b])) := by
  induction bs with
  | nil => intro s; rfl
  | cons c cs ih =>
    intro s
    simp only [ostream_write, writeToDevice, List.map_cons, writeChunks]
    have hret := Write_ret Z level fuel s [c]
    cases hW : NVGTBytecodeStream.Write Z level fuel s [c] with
    | none => rfl
    | some r =>
      rw [hW] at hret
      simp only [Option.map_some', Option.some.injEq, List.length_singleton] at hret
      have hne : r.2 ≠ eof := by
        rw [hret]
        decide
      simp only [hne, if_false]
      exact ih r.1

/-- SaveCompiledScript is get after the Write calls of codecChunks, in that order. -/
theorem SaveCompiledScript_order (Z : ZLib) (level : Int) (fuel N : Nat) (e : SaveEnv) :
    SaveCompiledScript Z level fuel N e =
      (if !e.has_module then some (-1, none)
        else (writeChunks Z level fuel (NVGTBytecodeStream.new Z) (codecChunks N e)).bind
          (fun s3 => if e.save_rc < 0 then some (-1, none)
            else some ((NVGTBytecodeStream.get Z s3).2.2,
              some (NVGTBytecodeStream.get Z s3).2.1))) := by
  unfold SaveCompiledScript codecChunks
  cases e.has_module with
  | false => rfl
  | true =>
    simp only [Bool.not_true, Bool.false_eq_true, if_false]
    rw [writeChunks_append, writeChunks_append, ostream_write_eq_writeChunks]
    cases h1 : writeChunks Z level fuel (NVGTBytecodeStream.new Z)
        (e.plugins.map (fun b => [b])) with
    | none => rfl
    | some s1 =>
      simp only [Option.bind_some, Option.some_bind]
      rw [ostream_write_eq_writeChunks]
      cases h2 : writeChunks Z level fuel s1
          (((List.range N).flatMap (fun i => write7BitEncoded (e.GetEngineProperty i))).map
            (fun b => [b])) with
      | none => rfl
      | some s2 =>
        simp only [Option.bind_some, Option.some_bind]
        cases h3 : writeChunks Z level fuel s2 e.bytecode with
        | none => rfl
        | some s3 => rfl

/-- A char other than ff (where plain char is signed) is not taken for the end of
the file and is recovered from the int readFromDevice returns. -/
theorem char_to_int_byte (cs : Bool) (b : Byte) (h : cs = true → b.val ≠ 255) :
    char_to_int cs b ≠ eof ∧ byte ((char_to_int cs b % 256).toNat) = b := by
  rcases b with ⟨v, hv⟩
  unfold char_to_int eof byte
  simp only at h
  cases cs with
  | false =>
    simp only [Bool.false_and, Bool.false_eq_true, if_false]
    refine ⟨by omega, ?_⟩
    apply Fin.ext
    simp only
    omega
  | true =>
    have h255 := h rfl
    simp only [Bool.true_and, decide_eq_true_eq]
    by_cases hc : 128 ≤ v
    · simp only [hc, if_true]
      refine ⟨by omega, ?_⟩
      apply Fin.ext
      simp only
      omega
    · simp only [hc, if_false]
      refine ⟨by omega, ?_⟩
      apply Fin.ext
      simp only
      omega

/-- One Read of size 1 on a stream initialised for inflate: what is delivered and
what the stream holds afterwards. -/
theorem Read_inflating (Z : ZLib) (s : NVGTBytecodeStream Z) (i : Z.IState)
    (hz : s.zstate = ZState.inflating i) :
    (NVGTBytecodeStream.Read Z s 1).delivered = (Z.inflate i s.next_in 1).2.2.1.take 1 ∧
    (NVGTBytecodeStream.Read Z s 1).stream.zstate
      = ZState.inflating (Z.inflate i s.next_in 1).1 ∧
    (NVGTBytecodeStream.Read Z s 1).stream.next_in
      = s.next_in.drop (Z.inflate i s.next_in 1).2.1 := by
  unfold NVGTBytecodeStream.Read
  rw [hz]
  exact ⟨rfl, rfl, rfl⟩

/-- Reading one char from a good istream whose codec stream still has the byte b
and then bs to deliver gives b and leaves a good istream with bs to deliver. -/
theorem read1_yields {Z : ZLib} (R : Z.IState → List Byte → List Byte → Prop)
    (hstep : ∀ i inp b bs, R i inp (b :: bs) →
      (Z.inflate i inp 1).2.2.1.take 1 = [b] ∧
        R (Z.inflate i inp 1).1 (inp.drop (Z.inflate i inp 1).2.1) bs)
    (cs : Bool) (uninit : Byte) (istr : IStream Z) (b : Byte) (bs : List Byte)
    (hg : istr.good = true) (hy : istr.stream.yields R (b :: bs))
    (hb : cs = true → b.val ≠ 255) :
    (istr.read1 cs uninit).2 = some b ∧ (istr.read1 cs uninit).1.good = true ∧
      (istr.read1 cs uninit).1.stream.yields R bs := by
  obtain ⟨i, hz, hr⟩ := hy
  obtain ⟨htake, hR⟩ := hstep i _ b bs hr
  obtain ⟨hd, hzs, hni⟩ := Read_inflating Z istr.stream i hz
  obtain ⟨hne, hbyte⟩ := char_to_int_byte cs b hb
  have h1 : toInt32 ((1 : Nat) : Int) = 1 := by decide
  have hdev : readFromDevice Z cs uninit istr.stream
      = ((NVGTBytecodeStream.Read Z istr.stream 1).stream, char_to_int cs b) := by
    unfold readFromDevice
    simp only [Read_ret, h1, ne_eq, not_true_eq_false, if_false, hd, htake, List.headD_cons]
  unfold IStream.read1
  simp only [hg, Bool.not_true, Bool.false_eq_true, if_false, hdev, hne, hbyte]
  exact ⟨trivial, trivial, _, hzs, by rw [hni]; exact hR⟩

/-- Reading from a good istream what the 7-bit writer wrote for v adds v, shifted
by the current shift, to the value read so far and leaves a good istream with the
bytes behind the written ones to deliver. -/
theorem read7BitEncodedLoop_write {Z : ZLib} (R : Z.IState → List Byte → List Byte → Prop)
    (hstep : ∀ i inp b bs, R i inp (b :: bs) →
      (Z.inflate i inp 1).2.2.1.take 1 = [b] ∧
        R (Z.inflate i inp 1).1 (inp.drop (Z.inflate i inp 1).2.1) bs)
    (cs : Bool) (uninit : Byte) (k : Nat) :
    ∀ (v acc sh fuel : Nat) (istr : IStream Z) (rest : List Byte),
      v < 128 ^ (k + 1) → acc + v * 2 ^ sh < 2 ^ 64 → k + 1 ≤ fuel → istr.good = true →
      istr.stream.yields R (write7BitEncodedLoop (k + 1) v ++ rest) →
      (cs = true → ∀ b ∈ write7BitEncodedLoop (k + 1) v, b.val ≠ 255) →
      ∃ istr1, read7BitEncodedLoop cs uninit fuel istr acc sh = some (istr1, acc + v * 2 ^ sh) ∧
        istr1.good = true ∧ istr1.stream.yields R rest := by
  induction k with
  | zero =>
    intro v acc sh fuel istr rest hv hacc hfuel hg hy hsafe
    have hv128 : v < 128 := by simpa using hv
    have hdiv : v / 128 = 0 := Nat.div_eq_of_lt hv128
    have hmod : v % 128 = v := Nat.mod_eq_of_lt hv128
    have hle : v * 2 ^ sh < 2 ^ 64 := by omega
    have h256 : v % 256 = v := Nat.mod_eq_of_lt (by omega)
    have hw : write7BitEncodedLoop (0 + 1) v = [byte v] := by
      simp only [write7BitEncodedLoop, hdiv, ne_eq, not_true_eq_false, if_false, hmod]
    rw [hw] at hy hsafe
    obtain ⟨h2, hg1, hy1⟩ := read1_yields R hstep cs uninit istr (byte v) rest hg hy
      (fun h => hsafe h _ (List.mem_singleton.2 rfl))
    obtain ⟨f, rfl⟩ : ∃ f, fuel = f + 1 := ⟨fuel - 1, by omega⟩
    refine ⟨(istr.read1 cs uninit).1, ?_, hg1, hy1⟩
    simp only [read7BitEncodedLoop, h2, Option.getD_some, byte, h256, hdiv, hmod, ne_eq,
      not_true_eq_false, if_false, Nat.shiftLeft_eq, Nat.mod_eq_of_lt hle,
      Nat.mod_eq_of_lt hacc]
  | succ k ih =>
    intro v acc sh fuel istr rest hv hacc hfuel hg hy hsafe
    obtain ⟨f, rfl⟩ : ∃ f, fuel = f + 1 := ⟨fuel - 1, by omega⟩
    by_cases hdiv : v / 128 = 0
    · have hv128 : v < 128 := by omega
      have hmod : v % 128 = v := Nat.mod_eq_of_lt hv128
      have hle : v * 2 ^ sh < 2 ^ 64 := by omega
      have h256 : v % 256 = v := Nat.mod_eq_of_lt (by omega)
      have hw : write7BitEncodedLoop (k + 1 + 1) v = [byte v] := by
        simp only [write7BitEncodedLoop, hdiv, ne_eq, not_true_eq_false, if_false, hmod]
      rw [hw] at hy hsafe
      obtain ⟨h2, hg1, hy1⟩ := read1_yields R hstep cs uninit istr (byte v) rest hg hy
        (fun h => hsafe h _ (List.mem_singleton.2 rfl))
      refine ⟨(istr.read1 cs uninit).1, ?_, hg1, hy1⟩
      simp only [read7BitEncodedLoop, h2, Option.getD_some, byte, h256, hdiv, hmod, ne_eq,
        not_true_eq_false, if_false, Nat.shiftLeft_eq, Nat.mod_eq_of_lt hle,
        Nat.mod_eq_of_lt hacc]
    · have hc256 : (v % 128 + 128) % 256 = v % 128 + 128 := Nat.mod_eq_of_lt (by omega)
      have hc128 : (v % 128 + 128) / 128 = 1 := by omega
      have hcm : (v % 128 + 128) % 128 = v % 128 := by omega
      have hsplit : v * 2 ^ sh = v % 128 * 2 ^ sh + v / 128 * 2 ^ (sh + 7) := by
        have h7 : 2 ^ (sh + 7) = 2 ^ sh * 128 := by rw [pow_add]; norm_num
        have h := Nat.div_add_mod v 128
        calc v * 2 ^ sh = (128 * (v / 128) + v % 128) * 2 ^ sh := by rw [h]
          _ = v % 128 * 2 ^ sh + v / 128 * 2 ^ (sh + 7) := by rw [h7]; ring
      have hq : v / 128 < 128 ^ (k + 1) := by
        apply Nat.div_lt_of_lt_mul
        rw [pow_succ] at hv
        rw [Nat.mul_comm]
        exact hv
      have hlow : v % 128 * 2 ^ sh < 2 ^ 64 := by omega
      have hacc1 : acc + v % 128 * 2 ^ sh < 2 ^ 64 := by omega
      have hw : write7BitEncodedLoop (k + 1 + 1) v
          = byte (v % 128 + 128) :: write7BitEncodedLoop (k + 1) (v / 128) := by
        rw [write7BitEncodedLoop]
        simp only [ne_eq, hdiv, not_false_eq_true, if_true]
      rw [hw] at hsafe
      rw [hw, List.cons_append] at hy
      obtain ⟨h2, hg1, hy1⟩ := read1_yields R hstep cs uninit istr (byte (v % 128 + 128))
        (write7BitEncodedLoop (k + 1) (v / 128) ++ rest) hg hy
        (fun h => hsafe h _ (List.mem_cons_self _ _))
      obtain ⟨istr1, hread, hg2, hy2⟩ := ih (v / 128) (acc + v % 128 * 2 ^ sh) (sh + 7) f
        (istr.read1 cs uninit).1 rest hq (by omega) (by omega) hg1 hy1
        (fun h b hb => hsafe h b (List.mem_cons_of_mem _ hb))
      refine ⟨istr1, ?_, hg2, hy2⟩
      simp only [read7BitEncodedLoop, h2, Option.getD_some, byte, hc256, hc128, hcm, ne_eq,
        one_ne_zero, not_false_eq_true, if_true, Nat.shiftLeft_eq, Nat.mod_eq_of_lt hlow,
        Nat.mod_eq_of_lt hacc1]
      rw [hread]
      congr 2
      omega

/-- The reader of line 585 reads back every 64-bit value the writer of line 497
wrote and leaves the istream good, with the bytes behind the value to deliver. -/
theorem read7BitEncoded_write {Z : ZLib} (R : Z.IState → List Byte → List Byte → Prop)
    (hstep : ∀ i inp b bs, R i inp (b :: bs) →
      (Z.inflate i inp 1).2.2.1.take 1 = [b] ∧
        R (Z.inflate i inp 1).1 (inp.drop (Z.inflate i inp 1).2.1) bs)
    (cs : Bool) (uninit : Byte) (fuel v : Nat) (istr : IStream Z) (rest : List Byte)
    (hfuel : 10 ≤ fuel) (hg : istr.good = true)
    (hy : istr.stream.yields R (write7BitEncoded v ++ rest))
    (hsafe : cs = true → ∀ b ∈ write7BitEncoded v, b.val ≠ 255) :
    ∃ istr1, read7BitEncoded cs uninit fuel istr = some (istr1, v % 2 ^ 64) ∧
      istr1.good = true ∧ istr1.stream.yields R rest := by
  have hv : v % 2 ^ 64 < 2 ^ 64 := Nat.mod_lt _ (by decide)
  obtain ⟨istr1, h, hg1, hy1⟩ := read7BitEncodedLoop_write R hstep cs uninit 9 (v % 2 ^ 64) 0 0
    fuel istr rest (by omega) (by omega) (by omega) hg hy hsafe
  refine ⟨istr1, ?_, hg1, hy1⟩
  unfold read7BitEncoded
  rw [h]
  congr 2
  omega

/-- The property loop of lines 583-587 reads back the values written by the loop
of line 497, index by index. -/
theorem loadProperties_write {Z : ZLib} (R : Z.IState → List Byte → List Byte → Prop)
    (hstep : ∀ i inp b bs, R i inp (b :: bs) →
      (Z.inflate i inp 1).2.2.1.take 1 = [b] ∧
        R (Z.inflate i inp 1).1 (inp.drop (Z.inflate i inp 1).2.1) bs)
    (cs : Bool) (uninit : Byte) (fuel : Nat) (vals : Nat → Nat) (hfuel : 10 ≤ fuel) (n : Nat) :
    ∀ (i : Nat) (istr : IStream Z) (rest : List Byte), istr.good = true →
      istr.stream.yields R
        ((List.range' i n).flatMap (fun j => write7BitEncoded (vals j)) ++ rest) →
      (cs = true → ∀ b ∈ (List.range' i n).flatMap (fun j => write7BitEncoded (vals j)),
        b.val ≠ 255) →
      ∃ istr1, loadProperties cs uninit fuel n i istr
          = some (istr1, (List.range' i n).map (fun j => (j, vals j % 2 ^ 64))) ∧
        istr1.good = true ∧ istr1.stream.yields R rest := by
  induction n with
  | zero =>
    intro i istr rest hg hy _
    exact ⟨istr, rfl, hg, by simpa using hy⟩
  | succ n ih =>
    intro i istr rest hg hy hsafe
    rw [List.range'_succ, List.flatMap_cons] at hy hsafe
    rw [List.append_assoc] at hy
    obtain ⟨istr1, h1, hg1, hy1⟩ := read7BitEncoded_write R hstep cs uninit fuel (vals i) istr _
      hfuel hg hy (fun h b hb => hsafe h b (List.mem_append_left _ hb))
    obtain ⟨istr2, h2, hg2, hy2⟩ := ih (i + 1) istr1 rest hg1 hy1
      (fun h b hb => hsafe h b (List.mem_append_right _ hb))
    refine ⟨istr2, ?_, hg2, hy2⟩
    rw [List.range'_succ, List.map_cons]
    simp only [loadProperties, h1, h2]

/-- The bytes passed to the codec stream by the Write calls of SaveCompiledScript:
plugin records, property table, bytecode. -/
theorem codecChunks_flatten (N : Nat) (e : SaveEnv) :
    (codecChunks N e).flatten = e.plugins ++ (propertyTable N e ++ e.bytecode.flatten) := by
  have hs : ∀ l : List Byte, (l.map (fun b => [b])).flatten = l := by
    intro l
    induction l with
    | nil => rfl
    | cons a t ih => simp only [List.map_cons, List.flatten_cons, ih, List.singleton_append]
  unfold codecChunks propertyTable
  rw [List.flatten_append, List.flatten_append, hs, hs, List.append_assoc]

/-- LoadCompiledScript, on a block whose decoding delivers the bytes
SaveCompiledScript wrote, with a plugin reader that consumes the plugin records,
sets every engine property to the value saved for it and hands LoadByteCode the
stream with the cursor at 0 and the bytecode still to deliver. -/
theorem LoadCompiledScript_order (Z : ZLib) (R : Z.IState → List Byte → List Byte → Prop)
    (cs : Bool) (uninit : Byte) (fuel N : Nat) (e : SaveEnv) (le : LoadEnv Z)
    (blk : List Byte) (size : Nat)
    (hstep : ∀ i inp b bs, R i inp (b :: bs) →
      (Z.inflate i inp 1).2.2.1.take 1 = [b] ∧
        R (Z.inflate i inp 1).1 (inp.drop (Z.inflate i inp 1).2.1) bs)
    (hmod : le.module_ok = true) (hfuel : 10 ≤ fuel)
    (hsafe : cs = true → ∀ b ∈ propertyTable N e, b.val ≠ 255)
    (hplug : ∀ (istr : IStream Z) (rest : List Byte), istr.good = true →
      istr.stream.yields R (e.plugins ++ rest) →
      (le.load_serialized_nvgt_plugins istr).1 = true ∧
        (le.load_serialized_nvgt_plugins istr).2.good = true ∧
        (le.load_serialized_nvgt_plugins istr).2.stream.yields R rest)
    (hblk : R Z.inflateInit (Z.decrypt (blk.take size)) (codecChunks N e).flatten) :
    ∃ r h, LoadCompiledScript Z cs uninit fuel N le blk size = some r ∧
      r.SetEngineProperty = (List.range N).map (fun i => (i, e.GetEngineProperty i % 2 ^ 64)) ∧
      r.handed = some h ∧ h.cursor = 0 ∧ h.yields R e.bytecode.flatten ∧
      r.ret = (if le.LoadByteCode h < 0 then -1 else 0) := by
  rw [codecChunks_flatten] at hblk
  have hy0 : (NVGTBytecodeStream.set Z (NVGTBytecodeStream.new Z) blk size).yields R
      (e.plugins ++ (propertyTable N e ++ e.bytecode.flatten)) := ⟨Z.inflateInit, rfl, hblk⟩
  obtain ⟨hp1, hpg, hpy⟩ := hplug
    { stream := NVGTBytecodeStream.set Z (NVGTBytecodeStream.new Z) blk size, good := true }
    _ rfl hy0
  unfold propertyTable at hpy hsafe
  rw [List.range_eq_range'] at hpy hsafe
  obtain ⟨istr1, hl, _, hy1⟩ := loadProperties_write R hstep cs uninit fuel e.GetEngineProperty
    hfuel N 0 _ _ hpg hpy hsafe
  refine ⟨⟨if le.LoadByteCode (NVGTBytecodeStream.reset_cursor istr1.stream) < 0 then -1 else 0,
      (List.range' 0 N).map (fun j => (j, e.GetEngineProperty j % 2 ^ 64)),
      some (NVGTBytecodeStream.reset_cursor istr1.stream)⟩,
    NVGTBytecodeStream.reset_cursor istr1.stream, ?_, ?_, rfl, rfl, hy1, rfl⟩
  · unfold LoadCompiledScript
    simp only [hmod, hp1, Bool.not_true, Bool.false_eq_true, if_false, hl]
  · rw [List.range_eq_range']

/-- C11 as stated fails: with one plugin record byte bb, one resource record byte
aa, one engine property 5 and the bytecode 01 02 03, a codec that stores bytes
unchanged and the constant 90, the bytes appended after the stub are
aa 5f bb 05 01 02 03: the resource records come first, then the obfuscated length
5 of the whole block, then the block, which holds the plugin records, the
property table and the bytecode.  The order of the specification would give
bb aa 05 59 01 02 03. -/
theorem data_section_order_differs :
    SaveCompiledScript storedZ 9 4 1 saveEnvLayout = some (5, some [187, 5, 1, 2, 3]) ∧
    (CompileExecutable_file 90 true [127] [170] (5, some [187, 5, 1, 2, 3])).2.drop 1
      = [170, 95, 187, 5, 1, 2, 3] ∧
    SaveCompiledScript storedZ 9 4 0 saveEnvBytecodeOnly = some (3, some [1, 2, 3]) ∧
    specDataSection 90 [187] [170] [5] [1, 2, 3] = [187, 170, 5, 89, 1, 2, 3] ∧
    (CompileExecutable_file 90 true [127] [170] (5, some [187, 5, 1, 2, 3])).2.drop 1
      ≠ specDataSection 90 [187] [170] [5] [1, 2, 3] := by
  refine ⟨by decide, by decide, by decide, by decide, by decide⟩

/-- C11 amended: the bytes CompileExecutable appends after the stub are, in this
order, the resource records, the XOR-obfuscated length of the block, the
compressed and encrypted block and, off windows, the trailer;
LoadCompiledExecutable, given a resource reader that consumes what the resource
writer wrote, consumes them in the same order and passes the block and its length
on; the block is what get returns after the codec stream was written, in this
order, the plugin records, the engine property table and the bytecode; and
LoadCompiledScript, on a block whose decoding delivers those bytes, with a plugin
reader that consumes the plugin records and no property byte ff where plain char
is signed, reads them in the same order: it sets every engine property to the
value saved for it and hands LoadByteCode the stream with the cursor at 0 and the
bytecode still to deliver. -/
theorem data_section_layout (Z : ZLib) (level : Int) (fuel N : Nat) (e : SaveEnv)
    (X : Nat) (windows : Bool) (stub packs code tail : List Byte) (n : Nat)
    (load_embedded_packs : List Byte → Bool × List Byte)
    (hn1 : 1 ≤ n) (hn : n < 2 ^ 32) (hX : X < 2 ^ 32) (hc : code.length = n)
    (hl : ∀ r, load_embedded_packs (packs ++ r) = (true, r)) :
    (CompileExecutable_file X windows stub packs (toInt32 n, some code)).2
      = stub ++ (packs ++ (write7BitEncoded32 ((n ^^^ X) % 2 ^ 32) ++
          (code ++ (if windows then [] else bytesLE32 (stub.length % 2 ^ 32))))) ∧
    LoadCompiledExecutable_read X load_embedded_packs
        (packs ++ (write7BitEncoded32 ((n ^^^ X) % 2 ^ 32) ++ (code ++ tail)))
      = some (code, n) ∧
    SaveCompiledScript Z level fuel N e =
      (if !e.has_module then some (-1, none)
        else (writeChunks Z level fuel (NVGTBytecodeStream.new Z) (codecChunks N e)).bind
          (fun s3 => if e.save_rc < 0 then some (-1, none)
            else some ((NVGTBytecodeStream.get Z s3).2.2,
              some (NVGTBytecodeStream.get Z s3).2.1))) ∧
    (codecChunks N e).flatten = e.plugins ++ (propertyTable N e ++ e.bytecode.flatten) ∧
    (∀ (R : Z.IState → List Byte → List Byte → Prop) (char_is_signed : Bool) (uninit : Byte)
        (rfuel : Nat) (le : LoadEnv Z) (blk : List Byte) (size : Nat),
      (∀ i inp b bs, R i inp (b :: bs) →
        (Z.inflate i inp 1).2.2.1.take 1 = [b] ∧
          R (Z.inflate i inp 1).1 (inp.drop (Z.inflate i inp 1).2.1) bs) →
      le.module_ok = true → 10 ≤ rfuel →
      (char_is_signed = true → ∀ b ∈ propertyTable N e, b.val ≠ 255) →
      (∀ (istr : IStream Z) (rest : List Byte), istr.good = true →
        istr.stream.yields R (e.plugins ++ rest) →
        (le.load_serialized_nvgt_plugins istr).1 = true ∧
          (le.load_serialized_nvgt_plugins istr).2.good = true ∧
          (le.load_serialized_nvgt_plugins istr).2.stream.yields R rest) →
      R Z.inflateInit (Z.decrypt (blk.take size))
        (e.plugins ++ (propertyTable N e ++ e.bytecode.flatten)) →
      ∃ r h, LoadCompiledScript Z char_is_signed uninit rfuel N le blk size = some r ∧
        r.SetEngineProperty
          = (List.range N).map (fun i => (i, e.GetEngineProperty i % 2 ^ 64)) ∧
        r.handed = some h ∧ h.cursor = 0 ∧ h.yields R e.bytecode.flatten ∧
        r.ret = (if le.LoadByteCode h < 0 then -1 else 0)) := by
  have hu : toUInt32 (toInt32 (n : Int)) = n := by
    rw [toUInt32_toInt32]
    omega
  have htr : toUInt32 (toInt32 ((stub.length : Int) % 2 ^ 64)) = stub.length % 2 ^ 32 := by
    rw [toUInt32_toInt32]
    omega
  refine ⟨?_, ?_, SaveCompiledScript_order Z level fuel N e, codecChunks_flatten N e,
    fun R cs uninit rfuel le blk size hstep hmod hfuel hsafe hplug hblk =>
      LoadCompiledScript_order Z R cs uninit rfuel N e le blk size hstep hmod hfuel hsafe hplug
        (by rw [codecChunks_flatten]; exact hblk)⟩
  · rw [CompileExecutable_file_ok X windows stub packs (toInt32 n) (some code) (by omega),
      hu, htr, Option.getD_some, ← hc, List.take_length]
  · unfold LoadCompiledExecutable_read
    rw [hl]
    simp only [if_true]
    rw [LoadCompiledExecutable_code_write X n code tail hn hX hc]

/-- C11 amended, at the build with resource byte aa, plugin byte bb, property 5
and bytecode 01 02 03 off windows: the file is the stub, aa, the length 5f, the
block bb 05 01 02 03 and the trailer; the loader finds the block behind the
resource byte and the length, reads plugin byte and property from it and hands
the virtual machine the bytecode. -/
theorem data_section_layout_witness :
    (CompileExecutable_file 90 false [127] [170] (toInt32 (5 : Nat), some [187, 5, 1, 2, 3])).2
      = [127, 170, 95, 187, 5, 1, 2, 3, 1, 0, 0, 0] ∧
    LoadCompiledExecutable_trailer 90 (fun d => (true, d.drop 1))
        [127, 170, 95, 187, 5, 1, 2, 3, 1, 0, 0, 0]
      = some ([187, 5, 1, 2, 3], 5) ∧
    (LoadCompiledScript storedZ true 0 4 1 loadEnvLayout [187, 5, 1, 2, 3] 5).map
        (fun r => r.SetEngineProperty) = some [(0, 5)] ∧
    (LoadCompiledScript storedZ true 0 4 1 loadEnvLayout [187, 5, 1, 2, 3] 5).bind
        (fun r => r.handed.map (fun h => (NVGTBytecodeStream.Read storedZ h 3).delivered))
      = some [1, 2, 3] ∧
    LoadCompiledExecutable_read 90 (fun d => (true, d.drop 1))
        ([170] ++ (write7BitEncoded32 ((5 ^^^ 90) % 2 ^ 32) ++ ([187, 5, 1, 2, 3] ++ [1, 0, 0, 0])))
      = some ([187, 5, 1, 2, 3], 5) ∧
    ∃ r h, LoadCompiledScript storedZ true 0 10 1 loadEnvLayout [187, 5, 1, 2, 3] 5 = some r ∧
      r.SetEngineProperty
        = (List.range 1).map (fun i => (i, saveEnvLayout.GetEngineProperty i % 2 ^ 64)) ∧
      r.handed = some h ∧ h.cursor = 0 ∧
      h.yields (fun _ inp bs => inp = bs) saveEnvLayout.bytecode.flatten ∧
      r.ret = (if loadEnvLayout.LoadByteCode h < 0 then -1 else 0) :=
  ⟨by decide, by decide, by decide, by decide,
    (data_section_layout storedZ 9 4 1 saveEnvLayout 90 false [127] [170] [187, 5, 1, 2, 3]
      [1, 0, 0, 0] 5 (fun d => (true, d.drop 1)) (by decide) (by decide) (by decide) rfl
      (fun _ => rfl)).2.1,
    (data_section_layout storedZ 9 4 1 saveEnvLayout 90 false [127] [170] [187, 5, 1, 2, 3]
      [1, 0, 0, 0] 5 (fun d => (true, d.drop 1)) (by decide) (by decide) (by decide) rfl
      (fun _ => rfl)).2.2.2.2 (fun _ inp bs => inp = bs) true 0 10 loadEnvLayout
      [187, 5, 1, 2, 3] 5
      (fun _ inp b bs h => by subst h; simp [storedZ])
      rfl (by decide)
      (fun _ b hb => by
        have ht : propertyTable 1 saveEnvLayout = [5] := by decide
        rw [ht, List.mem_singleton] at hb
        rw [hb]
        decide)
      (fun istr rest hg hy =>
        ⟨rfl,
          (read1_yields (fun _ inp bs => inp = bs)
            (fun _ inp b bs h => by subst h; simp [storedZ]) true 0 istr 187 rest hg hy
            (by decide)).2⟩)
      rfl⟩

end NVGT
